import Mathlib

/-!
Verification of `tensorflow/python/distribute/values.py`: distributed value
containers, synchronization policies, regroup/select structural algorithms
and the checkpoint restore rule for sync-on-read variables.

The Python module is shallowly embedded: the ambient replica / cross-replica
execution context becomes an explicit `Ctx` record, tensors holding scalar
float data become `ℚ` (`math_ops.cast` to a floating dtype is the identity in
this model), Python exceptions become the `Err` sum carried by `Except`, and
Python object identity is modelled by integer object ids carried in the value
constructors.
-/

/-- Python exceptions raised by the module, with their message where a claim
depends on it. -/
inductive Err where
  | notImplementedError (msg : String)
  | valueError (msg : String)
  | typeError (msg : String)
  | indexError
  | assertionError
deriving DecidableEq, Repr

/-- The `ReplicaContext` object returned by
`distribution_strategy_context.get_replica_context()` while in replica
context.  `replicaIdInSyncGroup = none` models a replica id that is a
non-constant tensor, for which `tensor_util.constant_value` yields `None`. -/
structure ReplicaCtx where
  replicaIdInSyncGroup : Option Nat
  numReplicasInSync : Nat
deriving DecidableEq, Repr

/-- Ambient distribution context: `replicaContext = none` models cross-replica
context (`get_replica_context()` returns `None`); `updateReplicaId` models
`distribute_lib.get_update_replica_id()`. -/
structure Ctx where
  replicaContext : Option ReplicaCtx
  updateReplicaId : Option Nat
deriving DecidableEq, Repr

/-- `_get_current_replica_id_as_int` (values.py line 46): the replica id from
the replica context if one is active, else the update replica id. -/
def getCurrentReplicaIdAsInt (ctx : Ctx) : Option Nat :=
  match ctx.replicaContext with
  | some rc => rc.replicaIdInSyncGroup
  | none => ctx.updateReplicaId

/-- `distribution_strategy_context.in_cross_replica_context()`: true exactly
when no replica context is active. -/
def isCrossReplica (ctx : Ctx) : Bool :=
  ctx.replicaContext.isNone

/-! ## DistributedValues.get (claim C1) -/

/-- The `DistributedValues` container: an ordered tuple of per-replica
values (values.py line 58). -/
structure DistributedValuesM (α : Type) where
  values : List α
deriving DecidableEq, Repr

/-- Message of the `NotImplementedError` raised by the base class
`DistributedValues._get_cross_replica` (values.py line 72). -/
def crossReplicaNotImplementedMsg : String :=
  "This method should be overridden by sub-classes which support cross-replica accesses."

/-- `DistributedValues.get` (values.py line 64).  The subclass-specific
`_get_cross_replica` resolution is passed explicitly (`getCross`); an
out-of-range replica id models Python's `IndexError` on `self._values[i]`. -/
def DistributedValuesM.get (dv : DistributedValuesM α) (ctx : Ctx)
    (getCross : Unit → Except Err α) : Except Err α :=
  match getCurrentReplicaIdAsInt ctx with
  | none => getCross ()
  | some i =>
    match dv.values.get? i with
    | some v => Except.ok v
    | none => Except.error Err.indexError

/-- The base class `DistributedValues._get_cross_replica` (values.py line 72):
always raises `NotImplementedError`. -/
def baseGetCross (α : Type) : Unit → Except Err α :=
  fun _ => Except.error (Err.notImplementedError crossReplicaNotImplementedMsg)

/-! ## PerReplicaSpec._to_components (claim C5) -/

/-- Message of the `ValueError` raised by `PerReplicaSpec._to_components`
(values.py line 300). -/
def flatteningErrMsg : String :=
  "Flattening a PerReplica to components is not supported in replica context."

/-- `PerReplicaSpec._to_components` (values.py line 297): rejects flattening
when a replica context is active with more than one replica in sync, and
otherwise returns the component values of the `PerReplica`. -/
def perReplicaToComponents (α : Type) (ctx : Ctx) (vals : List α) :
    Except Err (List α) :=
  match ctx.replicaContext with
  | some rc =>
    if rc.numReplicasInSync > 1 then
      Except.error (Err.valueError flatteningErrMsg)
    else
      Except.ok vals
  | none => Except.ok vals

/-! ## DistributedVariable.handle (claim C9) -/

/-- A physical component variable, reduced to the data claim C9 needs: its
resource handle. -/
structure ComponentVar where
  handle : Nat
deriving DecidableEq, Repr

/-- A `DistributedVariable`, reduced to its tuple of component variables. -/
structure DistributedVarH where
  values : List ComponentVar
deriving DecidableEq, Repr

/-- Message of the `ValueError` raised by `DistributedVariable.handle`
(values.py line 468). -/
def handleUnavailableMsg : String :=
  "`handle` is not available outside the replica context or a `tf.distribute.Strategy.update()` call."

/-- `DistributedVariable.handle` (values.py line 464): fails unless a replica
id resolves, else returns the handle of the selected component. -/
def DistributedVarH.handleProp (dv : DistributedVarH) (ctx : Ctx) :
    Except Err Nat :=
  match getCurrentReplicaIdAsInt ctx with
  | none => Except.error (Err.valueError handleUnavailableMsg)
  | some i =>
    match dv.values.get? i with
    | some v => Except.ok v.handle
    | none => Except.error Err.indexError

/-! ## SyncOnReadVariable assignment and restore (claims C3, C4) -/

/-- `tf.VariableAggregation`. -/
inductive Aggregation where
  | noneAgg
  | sum
  | mean
  | onlyFirstReplica
deriving DecidableEq, Repr

/-- A `SyncOnReadVariable` holding one scalar float per physical replica.
Tensors are modelled by `ℚ`, so `math_ops.cast(_, self.dtype)` is the
identity. -/
structure SyncOnReadVar where
  values : List ℚ
  aggregation : Aggregation
deriving DecidableEq, Repr

/-- Message of the `ValueError` raised by `SyncOnReadVariable.assign_add` /
`assign_sub` under SUM aggregation in cross-replica context (values.py
lines 1043 and 1058). -/
def syncOnReadSumMsg (opName : String) : String :=
  "SyncOnReadVariable does not support `" ++ opName ++
  "` in cross-replica context when aggregation is set to `tf.VariableAggregation.SUM`."

/-- `SyncOnReadVariable.assign_add` (values.py line 1054).  In cross-replica
context: SUM aggregation raises, otherwise the increment is fanned out to
every component.  In replica context `self.get().assign_add(..)` updates the
current replica's component; an unresolvable replica id would hand a reduced
tensor (which has no `assign_add`) to the call, modelled as a `TypeError`. -/
def SyncOnReadVar.assignAdd (v : SyncOnReadVar) (ctx : Ctx) (x : ℚ) :
    Except Err SyncOnReadVar :=
  if isCrossReplica ctx then
    if v.aggregation = Aggregation.sum then
      Except.error (Err.valueError (syncOnReadSumMsg "assign_add"))
    else
      Except.ok { v with values := v.values.map (fun e => e + x) }
  else
    match getCurrentReplicaIdAsInt ctx with
    | some i =>
      if i < v.values.length then
        Except.ok { v with values := v.values.set i (v.values.getD i 0 + x) }
      else Except.error Err.indexError
    | none => Except.error (Err.typeError "assign_add on a non-variable")

/-- `SyncOnReadVariable.assign_sub` (values.py line 1039); mirror image of
`assign_add`. -/
def SyncOnReadVar.assignSub (v : SyncOnReadVar) (ctx : Ctx) (x : ℚ) :
    Except Err SyncOnReadVar :=
  if isCrossReplica ctx then
    if v.aggregation = Aggregation.sum then
      Except.error (Err.valueError (syncOnReadSumMsg "assign_sub"))
    else
      Except.ok { v with values := v.values.map (fun e => e - x) }
  else
    match getCurrentReplicaIdAsInt ctx with
    | some i =>
      if i < v.values.length then
        Except.ok { v with values := v.values.set i (v.values.getD i 0 - x) }
      else Except.error Err.indexError
    | none => Except.error (Err.typeError "assign_sub on a non-variable")

/-- `SyncOnReadVariable.assign` (values.py line 1069).  In cross-replica
context the incoming value is divided by the component count when aggregation
is SUM, and the resulting tensor is assigned to every component. -/
def SyncOnReadVar.assign (v : SyncOnReadVar) (ctx : Ctx) (x : ℚ) :
    Except Err SyncOnReadVar :=
  if isCrossReplica ctx then
    let t := if v.aggregation = Aggregation.sum then x / (v.values.length : ℚ) else x
    Except.ok { v with values := v.values.map (fun _ => t) }
  else
    match getCurrentReplicaIdAsInt ctx with
    | some i =>
      if i < v.values.length then
        Except.ok { v with values := v.values.set i x }
      else Except.error Err.indexError
    | none => Except.error (Err.typeError "assign on a non-variable")

/-- `SyncOnReadVariable._get_cross_replica` (values.py line 1087), which is
what `_SyncOnReadSaveable` persists through the strategy read path.
ONLY_FIRST_REPLICA returns the primary component (in the source).  The other
aggregations delegate to `strategy.reduce`, which is outside this file;
modelled from the spec: "the owning strategy performs a true cross-device
reduce per the aggregation policy", i.e. SUM adds the components and MEAN
averages them.  NONE has no reduce op and fails. -/
def SyncOnReadVar.getCrossReplica (v : SyncOnReadVar) : Except Err ℚ :=
  if v.aggregation = Aggregation.onlyFirstReplica then
    match v.values with
    | [] => Except.error Err.indexError
    | p :: _ => Except.ok p
  else
    match v.aggregation with
    | Aggregation.sum => Except.ok v.values.sum
    | Aggregation.mean => Except.ok (v.values.sum / (v.values.length : ℚ))
    | Aggregation.noneAgg =>
      Except.error (Err.valueError "Could not convert from `tf.VariableAggregation` NONE")
    | Aggregation.onlyFirstReplica => Except.error Err.assertionError

/-- `_SyncOnReadSaveable.restore` (values.py line 1007): the restored tensor
is divided by the device count when aggregation is SUM, then assigned to
every component. -/
def syncOnReadRestore (v : SyncOnReadVar) (t : ℚ) : SyncOnReadVar :=
  let t2 := if v.aggregation = Aggregation.sum then t / (v.values.length : ℚ) else t
  { v with values := v.values.map (fun _ => t2) }

/-! ## Python values for the structural algorithms (claims C2, C6, C7, C8, C10)

`PyVal` models the Python objects that appear as leaves of nested
structures.  Object identity (`v is v0`) is modelled by the object/variable
ids carried in each constructor, so identity coincides with decidable
equality of `PyVal`. -/

/-- The synchronization policy of a `DistributedVariable`: `onWrite` for
`MirroredVariable` (which is also a `Mirrored`), `onRead` for
`SyncOnReadVariable` (which is not). -/
inductive VarKind where
  | onWrite
  | onRead
deriving DecidableEq, Repr

/-- A Python value as seen by `regroup` / `select_replica` /
`value_container`:

* `obj oid` — an ordinary object with identity `oid` and no
  `_distributed_container` attribute;
* `comp oid container` — a component variable of a `DistributedVariable`;
  its `_distributed_container` weakref dereferences to `container`
  (`none` when the container has been destroyed);
* `dvar kind vid compOids` — a `DistributedVariable` with component object
  ids `compOids` (per `DistributedDelegate.__getattr__`, the wrapper itself
  exposes no `_distributed_container` attribute);
* `perRep vals` — a `PerReplica`;
* `mirrored vals` — a `Mirrored`. -/
inductive PyVal where
  | obj (oid : Nat)
  | comp (oid : Nat) (container : Option (VarKind × Nat × List Nat))
  | dvar (kind : VarKind) (vid : Nat) (compOids : List Nat)
  | perRep (vals : List PyVal)
  | mirrored (vals : List PyVal)

mutual

/-- Structural (= identity, since ids are carried in the constructors)
equality test on `PyVal`. -/
def PyVal.beq : PyVal → PyVal → Bool
  | PyVal.obj a, PyVal.obj b => a == b
  | PyVal.comp a c, PyVal.comp b d => a == b && c == d
  | PyVal.dvar k v cs, PyVal.dvar l w ds => k == l && v == w && cs == ds
  | PyVal.perRep vs, PyVal.perRep ws => PyVal.beqList vs ws
  | PyVal.mirrored vs, PyVal.mirrored ws => PyVal.beqList vs ws
  | _, _ => false

/-- Elementwise `PyVal.beq` on lists. -/
def PyVal.beqList : List PyVal → List PyVal → Bool
  | [], [] => true
  | x :: xs, y :: ys => PyVal.beq x y && PyVal.beqList xs ys
  | _, _ => false

end

/-- `isinstance(v, DistributedValues)`. -/
def isDistributedValues : PyVal → Bool
  | PyVal.dvar _ _ _ => true
  | PyVal.perRep _ => true
  | PyVal.mirrored _ => true
  | _ => false

/-- `isinstance(v, DistributedVariable)`. -/
def isDistributedVariable : PyVal → Bool
  | PyVal.dvar _ _ _ => true
  | _ => false

/-- `isinstance(v, Mirrored)`: `Mirrored` values and `MirroredVariable`s
(`MirroredVariable` extends `Mirrored`; `SyncOnReadVariable` does not). -/
def isMirroredValue : PyVal → Bool
  | PyVal.mirrored _ => true
  | PyVal.dvar VarKind.onWrite _ _ => true
  | _ => false

/-- `isinstance(v, PerReplica)`. -/
def isPerReplicaValue : PyVal → Bool
  | PyVal.perRep _ => true
  | _ => false

/-- `hasattr(v, "_distributed_container")`: only component variables carry
the attribute (`DistributedVariable.__init__`, values.py line 378). -/
def hasDistributedContainer : PyVal → Bool
  | PyVal.comp _ _ => true
  | _ => false

/-- `v._distributed_container()` — dereference the weakref. -/
def containerOf : PyVal → Option (VarKind × Nat × List Nat)
  | PyVal.comp _ c => c
  | _ => none

/-- Rebuild the `DistributedVariable` object a container reference points
to. -/
def derefDVar : VarKind × Nat × List Nat → PyVal
  | (k, vid, comps) => PyVal.dvar k vid comps

/-- `v.values` of a `DistributedValues`: the per-replica tuple.  For a
`DistributedVariable` the elements are its component variables, each holding
the weak back-reference to the container. -/
def pyValues : PyVal → List PyVal
  | PyVal.perRep vs => vs
  | PyVal.mirrored vs => vs
  | PyVal.dvar k vid comps => comps.map (fun oid => PyVal.comp oid (some (k, vid, comps)))
  | _ => []

/-- The leaf case of `regroup` (values.py lines 1204-1243): if every replica
supplied the identical object and it is either a `DistributedVariable` or has
no `_distributed_container` attribute, return it unwrapped; if the leaves are
components of one distributed variable, return that container (a dead or
mismatched container reference trips the source's `assert`s, collapsed here
to `assertionError`); otherwise wrap the per-replica list with `wrap`. -/
def regroupLeaves (wrap : List PyVal → PyVal) (v0 : PyVal) (rest : List PyVal) :
    Except Err PyVal :=
  if rest.all (fun v => PyVal.beq v v0) &&
      (isDistributedVariable v0 || !hasDistributedContainer v0) then
    Except.ok v0
  else if hasDistributedContainer v0 then
    match containerOf v0 with
    | none => Except.error Err.assertionError
    | some c =>
      if rest.all (fun v => hasDistributedContainer v && (containerOf v == some c)) then
        Except.ok (derefDVar c)
      else
        Except.error Err.assertionError
  else
    Except.ok (wrap (v0 :: rest))

/-! ## Nested structures -/

/-- A nested Python structure in the sense of `tf.nest`: lists, tuples,
namedtuples (a tuple plus its type, identified by name) and dicts (an
association list of string keys, in insertion order), with `PyVal` leaves. -/
inductive Nest where
  | leaf (v : PyVal)
  | listN (xs : List Nest)
  | tupleN (xs : List Nest)
  | namedN (tyName : String) (xs : List Nest)
  | dictN (pairs : List (String × Nest))

/-- Default nest used with `getD`/`headD` where a bounds check has already
guaranteed presence. -/
def nestDflt : Nest := Nest.leaf (PyVal.obj 0)

/-- `isinstance(v, list)`, returning the children. -/
def asListChildren : Nest → Option (List Nest)
  | Nest.listN xs => some xs
  | _ => none

/-- `isinstance(v, tuple)` (true for namedtuples too), returning the
children. -/
def asTupleChildren : Nest → Option (List Nest)
  | Nest.tupleN xs => some xs
  | Nest.namedN _ xs => some xs
  | _ => none

/-- `isinstance(v, dict)`, returning the pairs. -/
def asDictPairs : Nest → Option (List (String × Nest))
  | Nest.dictN ps => some ps
  | _ => none

/-- A leaf nest, returning its value. -/
def asLeaf : Nest → Option PyVal
  | Nest.leaf v => some v
  | _ => none

/-- `set(v.keys()) == v0keys`: key sets equal (order-insensitive). -/
def keysEq (ps qs : List (String × Nest)) : Bool :=
  (ps.all (fun p => qs.any (fun q => q.1 == p.1))) &&
  (qs.all (fun q => ps.any (fun p => p.1 == q.1)))

/-- Apply a partial projection to every element, succeeding only if it
succeeds everywhere (the per-replica `isinstance` asserts of `regroup`). -/
def extractAll {α : Type} (f : Nest → Option α) : List Nest → Option (List α)
  | [] => some []
  | r :: rest =>
    match f r with
    | none => none
    | some a => (extractAll f rest).map (fun as => a :: as)

/-- Look up key `k` in every replica's dict (`v[key]` in the source); a
missing key models Python's `KeyError`, unreachable after the key-set
assert. -/
def lookupAll (k : String) : List (List (String × Nest)) → Except Err (List Nest)
  | [] => Except.ok []
  | qs :: rest =>
    match qs.find? (fun q => q.1 == k) with
    | none => Except.error Err.assertionError
    | some q => (lookupAll k rest).map (fun vs => q.2 :: vs)

mutual

/-- `regroup(values, wrap_class)` (values.py line 1164), with the per-replica
list split as head `v0` and tail `rest` (the source's `values[0]` /
`values[1:]`).  Structural asserts become `assertionError`.  The leaf case
requires every replica's value to be a leaf: the source would wrap
structurally mismatched values into the wrap class, a case no claim
exercises and which the typed embedding rejects. -/
def regroup (wrap : List PyVal → PyVal) : Nest → List Nest → Except Err Nest
  | Nest.listN xs, rest =>
    match extractAll asListChildren rest with
    | none => Except.error Err.assertionError
    | some cols =>
      if cols.all (fun ys => ys.length = xs.length) then
        (regroupCols wrap xs cols).map Nest.listN
      else Except.error Err.assertionError
  | Nest.tupleN xs, rest =>
    match extractAll asTupleChildren rest with
    | none => Except.error Err.assertionError
    | some cols =>
      if cols.all (fun ys => ys.length = xs.length) then
        (regroupCols wrap xs cols).map Nest.tupleN
      else Except.error Err.assertionError
  | Nest.namedN nm xs, rest =>
    match extractAll asTupleChildren rest with
    | none => Except.error Err.assertionError
    | some cols =>
      if cols.all (fun ys => ys.length = xs.length) then
        (regroupCols wrap xs cols).map (Nest.namedN nm)
      else Except.error Err.assertionError
  | Nest.dictN ps, rest =>
    match extractAll asDictPairs rest with
    | none => Except.error Err.assertionError
    | some cols =>
      if cols.all (fun qs => keysEq ps qs) then
        (regroupDict wrap ps cols).map Nest.dictN
      else Except.error Err.assertionError
  | Nest.leaf v, rest =>
    match extractAll asLeaf rest with
    | none => Except.error Err.assertionError
    | some vs => (regroupLeaves wrap v vs).map Nest.leaf

/-- Column-wise recursion of `regroup` over sequence children: the `i`-th
output regroups `v0`'s `i`-th child with every other replica's `i`-th child
(`tuple(v[i] for v in values)` in the source). -/
def regroupCols (wrap : List PyVal → PyVal) :
    List Nest → List (List Nest) → Except Err (List Nest)
  | [], _ => Except.ok []
  | x :: xs, cols => do
    let g ← regroup wrap x (cols.map (fun ys => ys.headD nestDflt))
    let gs ← regroupCols wrap xs (cols.map List.tail)
    return (g :: gs)

/-- Key-wise recursion of `regroup` over dict children, iterating the first
replica's keys (the source iterates `v0keys`; set iteration order is
modelled as the first dict's insertion order). -/
def regroupDict (wrap : List PyVal → PyVal) :
    List (String × Nest) → List (List (String × Nest)) →
    Except Err (List (String × Nest))
  | [], _ => Except.ok []
  | (k, x) :: ps, cols => do
    let colVals ← lookupAll k cols
    let g ← regroup wrap x colVals
    let gs ← regroupDict wrap ps cols
    return ((k, g) :: gs)

end

/-! ## select_replica and select_replica_mirrored (claims C2, C6) -/

mutual

/-- `select_replica(replica_id, structured)` (values.py line 1246):
`nest.map_structure` of `_get` — a `DistributedValues` leaf is sliced to
`x.values[replica_id]` unless it is a `DistributedVariable`; every other
leaf is returned unchanged.  An out-of-range slice models `IndexError`. -/
def selectReplica (i : Nat) : Nest → Except Err Nest
  | Nest.leaf x =>
    if isDistributedVariable x || !isDistributedValues x then
      Except.ok (Nest.leaf x)
    else
      match (pyValues x).get? i with
      | some v => Except.ok (Nest.leaf v)
      | none => Except.error Err.indexError
  | Nest.listN xs => (selectReplicaList i xs).map Nest.listN
  | Nest.tupleN xs => (selectReplicaList i xs).map Nest.tupleN
  | Nest.namedN nm xs => (selectReplicaList i xs).map (Nest.namedN nm)
  | Nest.dictN ps => (selectReplicaPairs i ps).map Nest.dictN

/-- `select_replica` mapped over sequence children. -/
def selectReplicaList (i : Nat) : List Nest → Except Err (List Nest)
  | [] => Except.ok []
  | x :: xs => do
    let y ← selectReplica i x
    let ys ← selectReplicaList i xs
    return (y :: ys)

/-- `select_replica` mapped over dict entries. -/
def selectReplicaPairs (i : Nat) :
    List (String × Nest) → Except Err (List (String × Nest))
  | [] => Except.ok []
  | (k, x) :: ps => do
    let y ← selectReplica i x
    let ys ← selectReplicaPairs i ps
    return ((k, y) :: ys)

end

/-- Message of the `TypeError` raised by `select_replica_mirrored`
(values.py line 1268). -/
def notMirroredMsg : String :=
  "Expected value to be mirrored across replicas"

mutual

/-- `select_replica_mirrored(replica_id, structured)` (values.py line 1262):
like `select_replica`, but every `DistributedValues` leaf is sliced and a
leaf that is not `Mirrored` raises `TypeError`. -/
def selectReplicaMirrored (i : Nat) : Nest → Except Err Nest
  | Nest.leaf x =>
    if isDistributedValues x then
      if !isMirroredValue x then
        Except.error (Err.typeError notMirroredMsg)
      else
        match (pyValues x).get? i with
        | some v => Except.ok (Nest.leaf v)
        | none => Except.error Err.indexError
    else
      Except.ok (Nest.leaf x)
  | Nest.listN xs => (selectReplicaMirroredList i xs).map Nest.listN
  | Nest.tupleN xs => (selectReplicaMirroredList i xs).map Nest.tupleN
  | Nest.namedN nm xs => (selectReplicaMirroredList i xs).map (Nest.namedN nm)
  | Nest.dictN ps => (selectReplicaMirroredPairs i ps).map Nest.dictN

/-- `select_replica_mirrored` mapped over sequence children. -/
def selectReplicaMirroredList (i : Nat) : List Nest → Except Err (List Nest)
  | [] => Except.ok []
  | x :: xs => do
    let y ← selectReplicaMirrored i x
    let ys ← selectReplicaMirroredList i xs
    return (y :: ys)

/-- `select_replica_mirrored` mapped over dict entries. -/
def selectReplicaMirroredPairs (i : Nat) :
    List (String × Nest) → Except Err (List (String × Nest))
  | [] => Except.ok []
  | (k, x) :: ps => do
    let y ← selectReplicaMirrored i x
    let ys ← selectReplicaMirroredPairs i ps
    return ((k, y) :: ys)

end

/-! ## value_container (claim C10) -/

/-- `value_container(val)` (values.py line 1311): returns the distributed
container a per-replica value belongs to — only when `val` carries a
`_distributed_container` back-reference, is not itself a
`DistributedVariable`, and the weakly-referenced container is still alive —
and otherwise returns `val` itself.  Total: no branch raises. -/
def valueContainer (val : PyVal) : PyVal :=
  if hasDistributedContainer val && !isDistributedVariable val then
    match containerOf val with
    | some c => derefDVar c
    | none => val
  else
    val

/-! ## MirroredVariable and AggregatingVariable updates (claims C7, C8) -/

/-- `_aggregation_error_msg.format(variable_type=vt)` (values.py line 695). -/
def aggregationErrorMsg (vt : String) : String :=
  "You must specify an aggregation method to update a " ++ vt ++
  " in Replica Context. You can do so by passing " ++
  "an explicit value for argument `aggregation` to tf.Variable(..)." ++
  "e.g. `tf.Variable(..., aggregation=tf.VariableAggregation.SUM)`" ++
  "`tf.VariableAggregation` lists the possible aggregation methods." ++
  "This is required because " ++ vt ++ " should always be " ++
  "kept in sync. When updating them or assigning to them in a " ++
  "replica context, we automatically try to aggregate the values " ++
  "before updating the variable. For this aggregation, we need to " ++
  "know the aggregation method. " ++
  "Another alternative is to not try to update such " ++ vt ++
  " in replica context, but in cross replica " ++
  "context. You can enter cross replica context by calling " ++
  "`tf.distribute.get_replica_context().merge_call(merge_fn, ..)`." ++
  "Inside `merge_fn`, you can then update the " ++ vt ++
  " using `tf.distribute.StrategyExtended.update()`."

/-- Message of the `ValueError` raised by the MEAN precision guard
(values.py line 853). -/
def meanPrecisionMsg : String :=
  "Cannot update non-float variables with tf.VariableAggregation.MEAN aggregation in replica context. Either change the variable dtype to float or update it in cross-replica context."

/-- The assignment entry points that dispatch through `_assign_func`. -/
inductive AssignOp where
  | assign
  | assignAdd
  | assignSub
deriving DecidableEq, Repr

/-- Observable outcome of `_assign_func`: which path the update took and
what value it carries onward. -/
inductive AssignResult where
  /-- cross-replica with an active update sub-context: `f` applied to the
  single component `values[update_replica_id]`. -/
  | appliedToComponent (op : AssignOp) (replicaId : Nat)
  /-- cross-replica without an update sub-context: delegated to
  `strategy.extended.update`. -/
  | strategyUpdate (op : AssignOp)
  /-- replica context: a merge was performed and `value` (the regrouped
  per-replica contributions) is aggregated and applied to every component. -/
  | mergedUpdate (op : AssignOp) (value : PyVal)

/-- A `MirroredVariable`, reduced to the state its update dispatch reads. -/
structure MirroredVar where
  aggregation : Aggregation
  dtypeIsFloating : Bool

/-- `MirroredVariable._assign_func` (values.py line 817) with the
per-replica contributed values made explicit: `contribs` lists each
replica's argument, and the rendezvous value seen by `merge_fn` is their
`regroup` (the source's `merge_fn` comment points at `regroup()` for how the
per-replica arguments are grouped: identical contributions arrive unwrapped,
divergent ones arrive as a `PerReplica`). -/
def MirroredVar.assignFunc (mv : MirroredVar) (op : AssignOp) (ctx : Ctx)
    (contribs : List PyVal) : Except Err AssignResult :=
  if isCrossReplica ctx then
    match ctx.updateReplicaId with
    | some i => Except.ok (AssignResult.appliedToComponent op i)
    | none => Except.ok (AssignResult.strategyUpdate op)
  else
    if mv.aggregation = Aggregation.noneAgg then
      Except.error (Err.valueError (aggregationErrorMsg "MirroredVariable"))
    else
      match contribs with
      | [] => Except.error Err.indexError
      | v0 :: rest =>
        match regroupLeaves PyVal.perRep v0 rest with
        | Except.error e => Except.error e
        | Except.ok value =>
          if mv.aggregation = Aggregation.mean ∧ mv.dtypeIsFloating = false ∧
              isPerReplicaValue value then
            Except.error (Err.valueError meanPrecisionMsg)
          else
            Except.ok (AssignResult.mergedUpdate op value)

/-- `MirroredVariable.assign_sub` (values.py line 866). -/
def MirroredVar.assignSub (mv : MirroredVar) (ctx : Ctx) (contribs : List PyVal) :
    Except Err AssignResult :=
  mv.assignFunc AssignOp.assignSub ctx contribs

/-- `MirroredVariable.assign_add` (values.py line 870). -/
def MirroredVar.assignAdd (mv : MirroredVar) (ctx : Ctx) (contribs : List PyVal) :
    Except Err AssignResult :=
  mv.assignFunc AssignOp.assignAdd ctx contribs

/-- `MirroredVariable.assign` (values.py line 874). -/
def MirroredVar.assign (mv : MirroredVar) (ctx : Ctx) (contribs : List PyVal) :
    Except Err AssignResult :=
  mv.assignFunc AssignOp.assign ctx contribs

/-- An `AggregatingVariable`, reduced to the state its update dispatch
reads (it wraps exactly one physical value). -/
structure AggregatingVar where
  aggregation : Aggregation

/-- `AggregatingVariable._assign_func` (values.py line 1354): same dispatch
as `MirroredVariable._assign_func` but with no MEAN precision guard and the
error message naming `AggregatingVariable`. -/
def AggregatingVar.assignFunc (av : AggregatingVar) (op : AssignOp) (ctx : Ctx)
    (contribs : List PyVal) : Except Err AssignResult :=
  if isCrossReplica ctx then
    match ctx.updateReplicaId with
    | some i => Except.ok (AssignResult.appliedToComponent op i)
    | none => Except.ok (AssignResult.strategyUpdate op)
  else
    if av.aggregation = Aggregation.noneAgg then
      Except.error (Err.valueError (aggregationErrorMsg "AggregatingVariable"))
    else
      match contribs with
      | [] => Except.error Err.indexError
      | v0 :: rest =>
        match regroupLeaves PyVal.perRep v0 rest with
        | Except.error e => Except.error e
        | Except.ok value => Except.ok (AssignResult.mergedUpdate op value)

/-- `AggregatingVariable.assign_sub` (values.py line 1385). -/
def AggregatingVar.assignSub (av : AggregatingVar) (ctx : Ctx)
    (contribs : List PyVal) : Except Err AssignResult :=
  av.assignFunc AssignOp.assignSub ctx contribs

/-- `AggregatingVariable.assign_add` (values.py line 1389). -/
def AggregatingVar.assignAdd (av : AggregatingVar) (ctx : Ctx)
    (contribs : List PyVal) : Except Err AssignResult :=
  av.assignFunc AssignOp.assignAdd ctx contribs

/-- `AggregatingVariable.assign` (values.py line 1393). -/
def AggregatingVar.assign (av : AggregatingVar) (ctx : Ctx)
    (contribs : List PyVal) : Except Err AssignResult :=
  av.assignFunc AssignOp.assign ctx contribs

/-! ## Leaf predicates and leaf map for claim C6 -/

mutual

/-- Some leaf is a `DistributedValues` that is not `Mirrored` (the condition
`select_replica_mirrored` rejects). -/
def hasNonMirroredDV : Nest → Bool
  | Nest.leaf x => isDistributedValues x && !isMirroredValue x
  | Nest.listN xs => hasNonMirroredDVList xs
  | Nest.tupleN xs => hasNonMirroredDVList xs
  | Nest.namedN _ xs => hasNonMirroredDVList xs
  | Nest.dictN ps => hasNonMirroredDVPairs ps

/-- `hasNonMirroredDV` over sequence children. -/
def hasNonMirroredDVList : List Nest → Bool
  | [] => false
  | x :: xs => hasNonMirroredDV x || hasNonMirroredDVList xs

/-- `hasNonMirroredDV` over dict entries. -/
def hasNonMirroredDVPairs : List (String × Nest) → Bool
  | [] => false
  | (_, x) :: ps => hasNonMirroredDV x || hasNonMirroredDVPairs ps

end

mutual

/-- Every `Mirrored` leaf has more than `i` per-replica components, so
slicing it at replica `i` is in bounds. -/
def mirroredInBounds (i : Nat) : Nest → Bool
  | Nest.leaf x =>
    !(isDistributedValues x && isMirroredValue x) || decide (i < (pyValues x).length)
  | Nest.listN xs => mirroredInBoundsList i xs
  | Nest.tupleN xs => mirroredInBoundsList i xs
  | Nest.namedN _ xs => mirroredInBoundsList i xs
  | Nest.dictN ps => mirroredInBoundsPairs i ps

/-- `mirroredInBounds` over sequence children. -/
def mirroredInBoundsList (i : Nat) : List Nest → Bool
  | [] => true
  | x :: xs => mirroredInBounds i x && mirroredInBoundsList i xs

/-- `mirroredInBounds` over dict entries. -/
def mirroredInBoundsPairs (i : Nat) : List (String × Nest) → Bool
  | [] => true
  | (_, x) :: ps => mirroredInBounds i x && mirroredInBoundsPairs i ps

end

mutual

/-- `nest.map_structure` of a pure leaf function. -/
def mapLeaves (f : PyVal → PyVal) : Nest → Nest
  | Nest.leaf x => Nest.leaf (f x)
  | Nest.listN xs => Nest.listN (mapLeavesList f xs)
  | Nest.tupleN xs => Nest.tupleN (mapLeavesList f xs)
  | Nest.namedN nm xs => Nest.namedN nm (mapLeavesList f xs)
  | Nest.dictN ps => Nest.dictN (mapLeavesPairs f ps)

/-- `mapLeaves` over sequence children. -/
def mapLeavesList (f : PyVal → PyVal) : List Nest → List Nest
  | [] => []
  | x :: xs => mapLeaves f x :: mapLeavesList f xs

/-- `mapLeaves` over dict entries. -/
def mapLeavesPairs (f : PyVal → PyVal) :
    List (String × Nest) → List (String × Nest)
  | [] => []
  | (k, x) :: ps => (k, mapLeaves f x) :: mapLeavesPairs f ps

end

/-- The leaf substitution `select_replica_mirrored` performs on a successful
traversal: slice every `DistributedValues` leaf at replica `i`, keep every
other leaf. -/
def sliceLeaf (i : Nat) (x : PyVal) : PyVal :=
  if isDistributedValues x then (pyValues x).getD i (PyVal.obj 0) else x

/-! ## Predicates for the regroup round trip (claim C2) -/

mutual

/-- Every leaf of the nest is a plain object (an ordinary per-replica value:
not a `DistributedValues`, not a component of a distributed variable). -/
def plainNest : Nest → Bool
  | Nest.leaf (PyVal.obj _) => true
  | Nest.leaf _ => false
  | Nest.listN xs => plainList xs
  | Nest.tupleN xs => plainList xs
  | Nest.namedN _ xs => plainList xs
  | Nest.dictN ps => plainPairs ps

/-- `plainNest` over sequence children. -/
def plainList : List Nest → Bool
  | [] => true
  | x :: xs => plainNest x && plainList xs

/-- `plainNest` over dict entries. -/
def plainPairs : List (String × Nest) → Bool
  | [] => true
  | (_, x) :: ps => plainNest x && plainPairs ps

end

mutual

/-- Structural identity of two nests: same constructors, lengths, namedtuple
type names, and dict keys in the same order. -/
def sameShape : Nest → Nest → Bool
  | Nest.leaf _, Nest.leaf _ => true
  | Nest.listN xs, Nest.listN ys => sameShapeList xs ys
  | Nest.tupleN xs, Nest.tupleN ys => sameShapeList xs ys
  | Nest.namedN nm xs, Nest.namedN nm2 ys => nm == nm2 && sameShapeList xs ys
  | Nest.dictN ps, Nest.dictN qs => sameShapePairs ps qs
  | _, _ => false

/-- `sameShape` over sequence children, elementwise. -/
def sameShapeList : List Nest → List Nest → Bool
  | [], [] => true
  | x :: xs, y :: ys => sameShape x y && sameShapeList xs ys
  | _, _ => false

/-- `sameShape` over dict entries, elementwise with equal keys. -/
def sameShapePairs : List (String × Nest) → List (String × Nest) → Bool
  | [], [] => true
  | (k, x) :: ps, (l, y) :: qs => k == l && sameShape x y && sameShapePairs ps qs
  | _, _ => false

end

/-- The keys of an association list are pairwise distinct (every Python dict
satisfies this). -/
def nodupKeys : List (String × Nest) → Bool
  | [] => true
  | (k, _) :: ps => !(ps.any (fun q => q.1 == k)) && nodupKeys ps

mutual

/-- Every dict anywhere in the nest has pairwise-distinct keys. -/
def keysNodup : Nest → Bool
  | Nest.leaf _ => true
  | Nest.listN xs => keysNodupList xs
  | Nest.tupleN xs => keysNodupList xs
  | Nest.namedN _ xs => keysNodupList xs
  | Nest.dictN ps => nodupKeys ps && keysNodupPairs ps

/-- `keysNodup` over sequence children. -/
def keysNodupList : List Nest → Bool
  | [] => true
  | x :: xs => keysNodup x && keysNodupList xs

/-- `keysNodup` over dict entries. -/
def keysNodupPairs : List (String × Nest) → Bool
  | [] => true
  | (_, x) :: ps => keysNodup x && keysNodupPairs ps

end

/-- The round-trip property of one replica structure `v0` against any list
of structurally-identical plain-leaf replica structures: `regroup` succeeds
and `select_replica i` of the result returns the `i`-th input. -/
def RoundtripP (v0 : Nest) : Prop :=
  ∀ (i : Nat) (rest : List Nest),
    plainNest v0 = true →
    (∀ v ∈ rest, plainNest v = true) →
    (∀ v ∈ rest, sameShape v0 v = true) →
    keysNodup v0 = true →
    i < rest.length + 1 →
    ∃ g, regroup PyVal.perRep v0 rest = Except.ok g ∧
      selectReplica i g = Except.ok ((v0 :: rest).getD i nestDflt)

/-! ## Shared helper lemmas -/

/-- Mapping a constant function is replication. -/
theorem list_map_const_eq_replicate {α β : Type} (l : List α) (b : β) :
    l.map (fun _ => b) = List.replicate l.length b := by
  induction l with
  | nil => rfl
  | cons x xs ih => simp [List.replicate, ih]

/-! ## Claim theorems -/

/-- C1: for a `DistributedValues` built from N elements, `get()` while the
current replica id resolves to `i < N` returns exactly `values[i]`; with no
replica id it delegates to the subclass cross-replica resolution, and for
the base container (whose resolution is `_get_cross_replica` of the base
class) it fails with `NotImplementedError`. -/
theorem claim_C1_distributed_values_get (α : Type) (dv : DistributedValuesM α)
    (ctx : Ctx) (i : Nat) (hi : i < dv.values.length) :
    (getCurrentReplicaIdAsInt ctx = some i →
      ∀ getCross : Unit → Except Err α,
        dv.get ctx getCross = Except.ok (dv.values.get ⟨i, hi⟩)) ∧
    (getCurrentReplicaIdAsInt ctx = none →
      (∀ getCross : Unit → Except Err α, dv.get ctx getCross = getCross ()) ∧
      dv.get ctx (baseGetCross α) =
        Except.error (Err.notImplementedError crossReplicaNotImplementedMsg)) := by
  refine ⟨?_, ?_⟩
  · intro h getCross
    simp [DistributedValuesM.get, h, List.getElem?_eq_getElem hi]
  · intro h
    exact ⟨fun getCross => by simp [DistributedValuesM.get, h],
           by simp [DistributedValuesM.get, h, baseGetCross]⟩

/-- Witness for C1 at a concrete two-replica container. -/
theorem claim_C1_distributed_values_get_witness :
    (DistributedValuesM.mk [10, 20]).get
        { replicaContext := some { replicaIdInSyncGroup := some 1, numReplicasInSync := 2 },
          updateReplicaId := none }
        (baseGetCross Nat) = Except.ok 20 :=
  (claim_C1_distributed_values_get Nat (DistributedValuesM.mk [10, 20])
      { replicaContext := some { replicaIdInSyncGroup := some 1, numReplicasInSync := 2 },
        updateReplicaId := none }
      1 (by decide)).1 rfl (baseGetCross Nat)

/-- C5 counterexample: the claim says flattening succeeds whenever we are
*outside* cross-replica context and is rejected *inside* multi-replica
cross-replica context.  The code does the opposite: in a replica context
with 2 replicas in sync (not a cross-replica context, so the claim requires
success) `_to_components` raises, and in cross-replica context (where a
multi-replica strategy would make the claim require rejection) it
succeeds. -/
theorem claim_C5_counterexample :
    perReplicaToComponents Nat
        { replicaContext := some { replicaIdInSyncGroup := some 0, numReplicasInSync := 2 },
          updateReplicaId := none } [10, 20]
      = Except.error (Err.valueError flatteningErrMsg) ∧
    perReplicaToComponents Nat
        { replicaContext := none, updateReplicaId := none } [10, 20]
      = Except.ok [10, 20] :=
  ⟨rfl, rfl⟩

/-- C5 (amended): flattening a `PerReplica` into its components is rejected
exactly when attempted inside an active *replica* context with more than one
replica in sync; in a single-replica replica context, and always in
cross-replica context, it returns the component values. -/
theorem claim_C5_to_components_amended (α : Type) (ctx : Ctx) (vals : List α) :
    (∀ rc, ctx.replicaContext = some rc → 1 < rc.numReplicasInSync →
      perReplicaToComponents α ctx vals
        = Except.error (Err.valueError flatteningErrMsg)) ∧
    (∀ rc, ctx.replicaContext = some rc → rc.numReplicasInSync ≤ 1 →
      perReplicaToComponents α ctx vals = Except.ok vals) ∧
    (ctx.replicaContext = none →
      perReplicaToComponents α ctx vals = Except.ok vals) := by
  refine ⟨?_, ?_, ?_⟩
  · intro rc h hgt
    simp [perReplicaToComponents, h, hgt]
  · intro rc h hle
    simp [perReplicaToComponents, h, Nat.not_lt.mpr hle]
  · intro h
    simp [perReplicaToComponents, h]

/-- Witness for the amended C5 in a 2-replica replica context. -/
theorem claim_C5_to_components_amended_witness :
    perReplicaToComponents Nat
        { replicaContext := some { replicaIdInSyncGroup := some 0, numReplicasInSync := 2 },
          updateReplicaId := none } [5]
      = Except.error (Err.valueError flatteningErrMsg) :=
  (claim_C5_to_components_amended Nat
      { replicaContext := some { replicaIdInSyncGroup := some 0, numReplicasInSync := 2 },
        updateReplicaId := none } [5]).1
    { replicaIdInSyncGroup := some 0, numReplicasInSync := 2 } rfl (by decide)

/-- C9: `DistributedVariable.handle` fails with the usage `ValueError`
whenever no replica id resolves (in particular in cross-replica context
with no update-context replica id), and returns `values[i].handle` when a
replica id `i < N` is active. -/
theorem claim_C9_handle (dv : DistributedVarH) (ctx : Ctx) (i : Nat)
    (hi : i < dv.values.length) :
    (getCurrentReplicaIdAsInt ctx = none →
      dv.handleProp ctx = Except.error (Err.valueError handleUnavailableMsg)) ∧
    (isCrossReplica ctx = true → ctx.updateReplicaId = none →
      dv.handleProp ctx = Except.error (Err.valueError handleUnavailableMsg)) ∧
    (getCurrentReplicaIdAsInt ctx = some i →
      dv.handleProp ctx = Except.ok (dv.values.get ⟨i, hi⟩).handle) := by
  refine ⟨?_, ?_, ?_⟩
  · intro h
    simp [DistributedVarH.handleProp, h]
  · intro hcross hupd
    have h : getCurrentReplicaIdAsInt ctx = none := by
      unfold getCurrentReplicaIdAsInt
      unfold isCrossReplica at hcross
      cases hrc : ctx.replicaContext with
      | none => simpa [hrc] using hupd
      | some rc => rw [hrc] at hcross; simp at hcross
    simp [DistributedVarH.handleProp, h]
  · intro h
    simp [DistributedVarH.handleProp, h, List.getElem?_eq_getElem hi]

/-- Witness for C9: error with no active replica id, success under an
update-context replica id. -/
theorem claim_C9_handle_witness :
    (DistributedVarH.mk [ComponentVar.mk 100, ComponentVar.mk 200]).handleProp
        { replicaContext := none, updateReplicaId := none }
      = Except.error (Err.valueError handleUnavailableMsg) ∧
    (DistributedVarH.mk [ComponentVar.mk 100, ComponentVar.mk 200]).handleProp
        { replicaContext := none, updateReplicaId := some 1 }
      = Except.ok 200 :=
  ⟨(claim_C9_handle (DistributedVarH.mk [ComponentVar.mk 100, ComponentVar.mk 200])
      { replicaContext := none, updateReplicaId := none } 0 (by decide)).1 rfl,
   (claim_C9_handle (DistributedVarH.mk [ComponentVar.mk 100, ComponentVar.mk 200])
      { replicaContext := none, updateReplicaId := some 1 } 1 (by decide)).2.2 rfl⟩

/-- C3: for a `SyncOnReadVariable` in cross-replica context: SUM aggregation
makes `assign_add`/`assign_sub` raise (returning no updated state); `assign`
under SUM writes `x / N` to every component; any non-SUM aggregation fans
the literal argument out to every component with no aggregation step. -/
theorem claim_C3_sync_on_read_cross_replica (v : SyncOnReadVar) (ctx : Ctx)
    (x : ℚ) (hc : isCrossReplica ctx = true) :
    (v.aggregation = Aggregation.sum →
      v.assignAdd ctx x = Except.error (Err.valueError (syncOnReadSumMsg "assign_add")) ∧
      v.assignSub ctx x = Except.error (Err.valueError (syncOnReadSumMsg "assign_sub")) ∧
      v.assign ctx x = Except.ok
        { v with values :=
            List.replicate v.values.length (x / (v.values.length : ℚ)) }) ∧
    (v.aggregation ≠ Aggregation.sum →
      v.assign ctx x = Except.ok
        { v with values := List.replicate v.values.length x } ∧
      v.assignAdd ctx x = Except.ok { v with values := v.values.map (fun e => e + x) } ∧
      v.assignSub ctx x = Except.ok { v with values := v.values.map (fun e => e - x) }) := by
  refine ⟨?_, ?_⟩
  · intro hsum
    refine ⟨?_, ?_, ?_⟩
    · simp [SyncOnReadVar.assignAdd, hc, hsum]
    · simp [SyncOnReadVar.assignSub, hc, hsum]
    · simp [SyncOnReadVar.assign, hc, hsum, list_map_const_eq_replicate]
  · intro hsum
    refine ⟨?_, ?_, ?_⟩
    · simp [SyncOnReadVar.assign, hc, hsum, list_map_const_eq_replicate]
    · simp [SyncOnReadVar.assignAdd, hc, hsum]
    · simp [SyncOnReadVar.assignSub, hc, hsum]

/-- Witness for C3 on a 3-replica SUM variable: `assign_add` raises and
`assign 6` writes `2` everywhere. -/
theorem claim_C3_sync_on_read_cross_replica_witness :
    (SyncOnReadVar.mk [2, 2, 2] Aggregation.sum).assignAdd
        { replicaContext := none, updateReplicaId := none } 1
      = Except.error (Err.valueError (syncOnReadSumMsg "assign_add")) ∧
    (SyncOnReadVar.mk [2, 2, 2] Aggregation.sum).assign
        { replicaContext := none, updateReplicaId := none } 6
      = Except.ok (SyncOnReadVar.mk [2, 2, 2] Aggregation.sum) := by
  have h := claim_C3_sync_on_read_cross_replica
      (SyncOnReadVar.mk [2, 2, 2] Aggregation.sum)
      { replicaContext := none, updateReplicaId := none } 6 rfl
  refine ⟨?_, ?_⟩
  · have h2 := claim_C3_sync_on_read_cross_replica
        (SyncOnReadVar.mk [2, 2, 2] Aggregation.sum)
        { replicaContext := none, updateReplicaId := none } 1 rfl
    exact (h2.1 rfl).1
  · have h3 := (h.1 rfl).2.2
    rw [h3]
    norm_num [List.replicate]

/-- C4: `_SyncOnReadSaveable.restore` assigns `t / N` to every component
when aggregation is SUM and `t` unmodified otherwise (identically to all
elements in both cases); consequently, for a SUM-aggregated variable whose
`n` components all hold `c`, saving (the strategy read-path reduce, which
for SUM totals the components) and then restoring leaves every component
holding `c` again. -/
theorem claim_C4_sync_on_read_restore (v : SyncOnReadVar) (t : ℚ) (n : Nat) (c : ℚ) :
    (v.aggregation = Aggregation.sum →
      (syncOnReadRestore v t).values
        = List.replicate v.values.length (t / (v.values.length : ℚ))) ∧
    (v.aggregation ≠ Aggregation.sum →
      (syncOnReadRestore v t).values = List.replicate v.values.length t) ∧
    (v.aggregation = Aggregation.sum → v.values = List.replicate n c →
      v.getCrossReplica = Except.ok ((n : ℚ) * c) ∧
      syncOnReadRestore v ((n : ℚ) * c) = v) := by
  refine ⟨?_, ?_, ?_⟩
  · intro hsum
    simp [syncOnReadRestore, hsum, list_map_const_eq_replicate]
  · intro hsum
    simp [syncOnReadRestore, hsum, list_map_const_eq_replicate]
  · intro hsum hval
    obtain ⟨vals, agg⟩ := v
    simp only [SyncOnReadVar.mk.injEq] at *
    subst hval
    subst hsum
    constructor
    · simp [SyncOnReadVar.getCrossReplica, List.sum_replicate, nsmul_eq_mul]
    · rcases Nat.eq_zero_or_pos n with hn | hn
      · subst hn
        simp [syncOnReadRestore]
      · have hne : (n : ℚ) ≠ 0 := Nat.cast_ne_zero.mpr (Nat.pos_iff_ne_zero.mp hn)
        simp [syncOnReadRestore, list_map_const_eq_replicate,
          mul_div_cancel_left₀ c hne]

/-- Witness for C4: a 3-replica SUM variable holding `2` everywhere saves
as `6` and restores back to `2` everywhere. -/
theorem claim_C4_sync_on_read_restore_witness :
    (SyncOnReadVar.mk [2, 2, 2] Aggregation.sum).getCrossReplica
      = Except.ok ((3 : ℚ) * 2) ∧
    syncOnReadRestore (SyncOnReadVar.mk [2, 2, 2] Aggregation.sum) ((3 : ℚ) * 2)
      = SyncOnReadVar.mk [2, 2, 2] Aggregation.sum :=
  (claim_C4_sync_on_read_restore (SyncOnReadVar.mk [2, 2, 2] Aggregation.sum)
      0 3 2).2.2 rfl (by norm_num [List.replicate])

/-- C10: `value_container` is total (a plain Lean function, no error
branch).  It returns the owning container exactly for a component variable
whose weak back-reference is still alive; a dead back-reference, a value
without the attribute, and a `DistributedVariable` itself all map to the
input unchanged. -/
theorem claim_C10_value_container :
    (∀ oid k vid comps,
      valueContainer (PyVal.comp oid (some (k, vid, comps))) = PyVal.dvar k vid comps) ∧
    (∀ oid, valueContainer (PyVal.comp oid none) = PyVal.comp oid none) ∧
    (∀ v : PyVal, hasDistributedContainer v = false → valueContainer v = v) ∧
    (∀ v : PyVal, isDistributedVariable v = true → valueContainer v = v) := by
  refine ⟨?_, ?_, ?_, ?_⟩
  · intro oid k vid comps
    rfl
  · intro oid
    rfl
  · intro v h
    simp [valueContainer, h]
  · intro v h
    simp [valueContainer, h]

/-- Witness for C10: alive back-reference resolves to the container; a
plain object is returned unchanged. -/
theorem claim_C10_value_container_witness :
    valueContainer (PyVal.comp 0 (some (VarKind.onWrite, 7, [1, 2])))
      = PyVal.dvar VarKind.onWrite 7 [1, 2] ∧
    valueContainer (PyVal.obj 5) = PyVal.obj 5 :=
  ⟨claim_C10_value_container.1 0 VarKind.onWrite 7 [1, 2],
   claim_C10_value_container.2.2.1 (PyVal.obj 5) rfl⟩

/-- `regroupLeaves` on a replica-uniform plain object returns it unwrapped
(the source's `same_id` shortcut). -/
theorem regroupLeaves_obj_uniform (wrap : List PyVal → PyVal) (a : Nat)
    (rest : List PyVal) (h : ∀ v ∈ rest, v = PyVal.obj a) :
    regroupLeaves wrap (PyVal.obj a) rest = Except.ok (PyVal.obj a) := by
  unfold regroupLeaves
  have hall : rest.all (fun v => PyVal.beq v (PyVal.obj a)) = true := by
    rw [List.all_eq_true]
    intro v hv
    rw [h v hv]
    simp [PyVal.beq]
  simp [hall, hasDistributedContainer, isDistributedVariable]

/-- `regroupLeaves` on plain objects that genuinely differ wraps the
per-replica list with the wrap class. -/
theorem regroupLeaves_obj_divergent (wrap : List PyVal → PyVal) (a : Nat)
    (rest : List PyVal) (hobj : ∀ v ∈ rest, ∃ b, v = PyVal.obj b)
    (hdiv : ∃ v ∈ rest, v ≠ PyVal.obj a) :
    regroupLeaves wrap (PyVal.obj a) rest
      = Except.ok (wrap (PyVal.obj a :: rest)) := by
  unfold regroupLeaves
  have hall : rest.all (fun v => PyVal.beq v (PyVal.obj a)) = false := by
    rw [List.all_eq_false]
    obtain ⟨v, hv, hne⟩ := hdiv
    obtain ⟨b, rfl⟩ := hobj v hv
    refine ⟨PyVal.obj b, hv, ?_⟩
    simp only [PyVal.beq, beq_iff_eq]
    exact fun hba => hne (by rw [hba])
  simp [hall, hasDistributedContainer]

/-- C7: a MirroredVariable with MEAN aggregation and a non-floating dtype,
updated in replica context, raises the precision-guard `ValueError` when the
per-replica contributed values genuinely differ, and permits the update when
the contribution is replica-uniform (the merge value then arrives unwrapped
rather than as a `PerReplica`). -/
theorem claim_C7_mean_precision_guard (ctx : Ctx) (op : AssignOp) (a : Nat)
    (rest : List PyVal) (hrc : isCrossReplica ctx = false)
    (hobj : ∀ v ∈ rest, ∃ b, v = PyVal.obj b) :
    ((∃ v ∈ rest, v ≠ PyVal.obj a) →
      (MirroredVar.mk Aggregation.mean false).assignFunc op ctx (PyVal.obj a :: rest)
        = Except.error (Err.valueError meanPrecisionMsg)) ∧
    ((∀ v ∈ rest, v = PyVal.obj a) →
      (MirroredVar.mk Aggregation.mean false).assignFunc op ctx (PyVal.obj a :: rest)
        = Except.ok (AssignResult.mergedUpdate op (PyVal.obj a))) := by
  constructor
  · intro hdiv
    simp [MirroredVar.assignFunc, hrc,
      regroupLeaves_obj_divergent PyVal.perRep a rest hobj hdiv,
      isPerReplicaValue]
  · intro huni
    simp [MirroredVar.assignFunc, hrc,
      regroupLeaves_obj_uniform PyVal.perRep a rest huni,
      isPerReplicaValue]

/-- Witness for C7 in a two-replica replica context: divergent integer
contributions are rejected, uniform ones are permitted. -/
theorem claim_C7_mean_precision_guard_witness :
    (MirroredVar.mk Aggregation.mean false).assignFunc AssignOp.assignAdd
        { replicaContext := some { replicaIdInSyncGroup := some 0, numReplicasInSync := 2 },
          updateReplicaId := none }
        [PyVal.obj 1, PyVal.obj 2]
      = Except.error (Err.valueError meanPrecisionMsg) ∧
    (MirroredVar.mk Aggregation.mean false).assignFunc AssignOp.assignAdd
        { replicaContext := some { replicaIdInSyncGroup := some 0, numReplicasInSync := 2 },
          updateReplicaId := none }
        [PyVal.obj 1, PyVal.obj 1]
      = Except.ok (AssignResult.mergedUpdate AssignOp.assignAdd (PyVal.obj 1)) := by
  have h := claim_C7_mean_precision_guard
      { replicaContext := some { replicaIdInSyncGroup := some 0, numReplicasInSync := 2 },
        updateReplicaId := none }
      AssignOp.assignAdd 1 [PyVal.obj 2] rfl (by intro v hv; exact ⟨2, by simpa using hv⟩)
  have h2 := claim_C7_mean_precision_guard
      { replicaContext := some { replicaIdInSyncGroup := some 0, numReplicasInSync := 2 },
        updateReplicaId := none }
      AssignOp.assignAdd 1 [PyVal.obj 1] rfl (by intro v hv; exact ⟨1, by simpa using hv⟩)
  refine ⟨h.1 ⟨PyVal.obj 2, by simp, by simp⟩, h2.2 ?_⟩
  intro v hv
  simpa using hv

set_option maxRecDepth 4000 in
/-- C8: every mutating entry point (`assign`, `assign_add`, `assign_sub`)
of a MirroredVariable in replica context with aggregation NONE fails with
the `ValueError` whose message tells the user to supply an aggregation
method via the `aggregation` argument of `tf.Variable(..)`; the same
precondition and failure applies to `AggregatingVariable`, with its own
variable type named in the message. -/
theorem claim_C8_none_aggregation_rejected (ctx : Ctx) (op : AssignOp)
    (contribs : List PyVal) (dtypeF : Bool) (rc : ReplicaCtx)
    (hrc : ctx.replicaContext = some rc) :
    (MirroredVar.mk Aggregation.noneAgg dtypeF).assignFunc op ctx contribs
      = Except.error (Err.valueError (aggregationErrorMsg "MirroredVariable")) ∧
    (AggregatingVar.mk Aggregation.noneAgg).assignFunc op ctx contribs
      = Except.error (Err.valueError (aggregationErrorMsg "AggregatingVariable")) ∧
    (∃ tailMsg : String, aggregationErrorMsg "MirroredVariable"
      = "You must specify an aggregation method to update a MirroredVariable in Replica Context. You can do so by passing an explicit value for argument `aggregation` to tf.Variable(..)."
        ++ tailMsg) := by
  refine ⟨?_, ?_, ?_⟩
  · simp [MirroredVar.assignFunc, isCrossReplica, hrc]
  · simp [AggregatingVar.assignFunc, isCrossReplica, hrc]
  · exact ⟨"e.g. `tf.Variable(..., aggregation=tf.VariableAggregation.SUM)`"
      ++ "`tf.VariableAggregation` lists the possible aggregation methods."
      ++ "This is required because MirroredVariable should always be "
      ++ "kept in sync. When updating them or assigning to them in a "
      ++ "replica context, we automatically try to aggregate the values "
      ++ "before updating the variable. For this aggregation, we need to "
      ++ "know the aggregation method. "
      ++ "Another alternative is to not try to update such MirroredVariable"
      ++ " in replica context, but in cross replica "
      ++ "context. You can enter cross replica context by calling "
      ++ "`tf.distribute.get_replica_context().merge_call(merge_fn, ..)`."
      ++ "Inside `merge_fn`, you can then update the MirroredVariable"
      ++ " using `tf.distribute.StrategyExtended.update()`.", by rfl⟩

/-- Witness for C8 in a concrete replica context. -/
theorem claim_C8_none_aggregation_rejected_witness :
    (MirroredVar.mk Aggregation.noneAgg true).assignFunc AssignOp.assign
        { replicaContext := some { replicaIdInSyncGroup := some 0, numReplicasInSync := 2 },
          updateReplicaId := none }
        [PyVal.obj 1, PyVal.obj 2]
      = Except.error (Err.valueError (aggregationErrorMsg "MirroredVariable")) :=
  (claim_C8_none_aggregation_rejected
      { replicaContext := some { replicaIdInSyncGroup := some 0, numReplicasInSync := 2 },
        updateReplicaId := none }
      AssignOp.assign [PyVal.obj 1, PyVal.obj 2] true
      { replicaIdInSyncGroup := some 0, numReplicasInSync := 2 } rfl).1


/-- `Except.map` on a success. -/
@[simp] theorem except_map_ok {α β : Type} (f : α → β) (a : α) :
    Except.map f (Except.ok a : Except Err α) = Except.ok (f a) := rfl

/-- `Except.map` on an error. -/
@[simp] theorem except_map_error {α β : Type} (f : α → β) (e : Err) :
    Except.map f (Except.error e : Except Err α) = Except.error e := rfl

/-- `Except` bind on a success. -/
@[simp] theorem except_bind_ok {α β : Type} (a : α) (f : α → Except Err β) :
    (Except.ok a >>= f) = f a := rfl

/-- `Except` bind on an error. -/
@[simp] theorem except_bind_error {α β : Type} (e : Err) (f : α → Except Err β) :
    ((Except.error e : Except Err α) >>= f) = Except.error e := rfl

mutual

/-- When no leaf is a non-Mirrored `DistributedValues` and every `Mirrored`
leaf is in bounds, `select_replica_mirrored` succeeds and equals the pure
leaf map. -/
theorem selectReplicaMirrored_ok (i : Nat) :
    ∀ (n : Nest), hasNonMirroredDV n = false → mirroredInBounds i n = true →
      selectReplicaMirrored i n = Except.ok (mapLeaves (sliceLeaf i) n)
  | Nest.leaf x, hbad, hib => by
    simp only [hasNonMirroredDV, Bool.and_eq_false_iff, Bool.not_eq_false] at hbad
    cases hdv : isDistributedValues x with
    | false =>
      simp [selectReplicaMirrored, mapLeaves, sliceLeaf, hdv]
    | true =>
      have hmir : isMirroredValue x = true := by
        cases hbad with
        | inl h => rw [hdv] at h; cases h
        | inr h => simpa using h
      simp only [mirroredInBounds, hdv, hmir, Bool.and_self, Bool.not_true,
        Bool.false_or, decide_eq_true_eq] at hib
      simp [selectReplicaMirrored, mapLeaves, sliceLeaf, hdv, hmir,
        List.getElem?_eq_getElem hib, List.getD]
  | Nest.listN xs, hbad, hib => by
    have h := selectReplicaMirroredList_ok i xs
      (by simpa [hasNonMirroredDV] using hbad)
      (by simpa [mirroredInBounds] using hib)
    simp [selectReplicaMirrored, mapLeaves, h]
  | Nest.tupleN xs, hbad, hib => by
    have h := selectReplicaMirroredList_ok i xs
      (by simpa [hasNonMirroredDV] using hbad)
      (by simpa [mirroredInBounds] using hib)
    simp [selectReplicaMirrored, mapLeaves, h]
  | Nest.namedN nm xs, hbad, hib => by
    have h := selectReplicaMirroredList_ok i xs
      (by simpa [hasNonMirroredDV] using hbad)
      (by simpa [mirroredInBounds] using hib)
    simp [selectReplicaMirrored, mapLeaves, h]
  | Nest.dictN ps, hbad, hib => by
    have h := selectReplicaMirroredPairs_ok i ps
      (by simpa [hasNonMirroredDV] using hbad)
      (by simpa [mirroredInBounds] using hib)
    simp [selectReplicaMirrored, mapLeaves, h]

/-- List version of `selectReplicaMirrored_ok`. -/
theorem selectReplicaMirroredList_ok (i : Nat) :
    ∀ (xs : List Nest), hasNonMirroredDVList xs = false →
      mirroredInBoundsList i xs = true →
      selectReplicaMirroredList i xs = Except.ok (mapLeavesList (sliceLeaf i) xs)
  | [], _, _ => by simp [selectReplicaMirroredList, mapLeavesList]
  | x :: xs, hbad, hib => by
    simp only [hasNonMirroredDVList, Bool.or_eq_false_iff] at hbad
    simp only [mirroredInBoundsList, Bool.and_eq_true] at hib
    have h1 := selectReplicaMirrored_ok i x hbad.1 hib.1
    have h2 := selectReplicaMirroredList_ok i xs hbad.2 hib.2
    simp [selectReplicaMirroredList, mapLeavesList, h1, h2]

/-- Dict version of `selectReplicaMirrored_ok`. -/
theorem selectReplicaMirroredPairs_ok (i : Nat) :
    ∀ (ps : List (String × Nest)), hasNonMirroredDVPairs ps = false →
      mirroredInBoundsPairs i ps = true →
      selectReplicaMirroredPairs i ps = Except.ok (mapLeavesPairs (sliceLeaf i) ps)
  | [], _, _ => by simp [selectReplicaMirroredPairs, mapLeavesPairs]
  | (k, x) :: ps, hbad, hib => by
    simp only [hasNonMirroredDVPairs, Bool.or_eq_false_iff] at hbad
    simp only [mirroredInBoundsPairs, Bool.and_eq_true] at hib
    have h1 := selectReplicaMirrored_ok i x hbad.1 hib.1
    have h2 := selectReplicaMirroredPairs_ok i ps hbad.2 hib.2
    simp [selectReplicaMirroredPairs, mapLeavesPairs, h1, h2]

end

mutual

/-- When some leaf is a non-Mirrored `DistributedValues` (and every
`Mirrored` leaf is in bounds), `select_replica_mirrored` raises the
`TypeError`. -/
theorem selectReplicaMirrored_err (i : Nat) :
    ∀ (n : Nest), hasNonMirroredDV n = true → mirroredInBounds i n = true →
      selectReplicaMirrored i n = Except.error (Err.typeError notMirroredMsg)
  | Nest.leaf x, hbad, _ => by
    simp only [hasNonMirroredDV, Bool.and_eq_true, Bool.not_eq_true] at hbad
    simp [selectReplicaMirrored, hbad.1, hbad.2]
  | Nest.listN xs, hbad, hib => by
    have h := selectReplicaMirroredList_err i xs
      (by simpa [hasNonMirroredDV] using hbad)
      (by simpa [mirroredInBounds] using hib)
    simp [selectReplicaMirrored, h]
  | Nest.tupleN xs, hbad, hib => by
    have h := selectReplicaMirroredList_err i xs
      (by simpa [hasNonMirroredDV] using hbad)
      (by simpa [mirroredInBounds] using hib)
    simp [selectReplicaMirrored, h]
  | Nest.namedN nm xs, hbad, hib => by
    have h := selectReplicaMirroredList_err i xs
      (by simpa [hasNonMirroredDV] using hbad)
      (by simpa [mirroredInBounds] using hib)
    simp [selectReplicaMirrored, h]
  | Nest.dictN ps, hbad, hib => by
    have h := selectReplicaMirroredPairs_err i ps
      (by simpa [hasNonMirroredDV] using hbad)
      (by simpa [mirroredInBounds] using hib)
    simp [selectReplicaMirrored, h]

/-- List version of `selectReplicaMirrored_err`. -/
theorem selectReplicaMirroredList_err (i : Nat) :
    ∀ (xs : List Nest), hasNonMirroredDVList xs = true →
      mirroredInBoundsList i xs = true →
      selectReplicaMirroredList i xs = Except.error (Err.typeError notMirroredMsg)
  | x :: xs, hbad, hib => by
    simp only [mirroredInBoundsList, Bool.and_eq_true] at hib
    cases hx : hasNonMirroredDV x with
    | true =>
      have h1 := selectReplicaMirrored_err i x hx hib.1
      simp [selectReplicaMirroredList, h1]
    | false =>
      have hxs : hasNonMirroredDVList xs = true := by
        simp only [hasNonMirroredDVList, hx, Bool.false_or] at hbad
        exact hbad
      have h1 := selectReplicaMirrored_ok i x hx hib.1
      have h2 := selectReplicaMirroredList_err i xs hxs hib.2
      simp [selectReplicaMirroredList, h1, h2]

/-- Dict version of `selectReplicaMirrored_err`. -/
theorem selectReplicaMirroredPairs_err (i : Nat) :
    ∀ (ps : List (String × Nest)), hasNonMirroredDVPairs ps = true →
      mirroredInBoundsPairs i ps = true →
      selectReplicaMirroredPairs i ps = Except.error (Err.typeError notMirroredMsg)
  | (k, x) :: ps, hbad, hib => by
    simp only [mirroredInBoundsPairs, Bool.and_eq_true] at hib
    cases hx : hasNonMirroredDV x with
    | true =>
      have h1 := selectReplicaMirrored_err i x hx hib.1
      simp [selectReplicaMirroredPairs, h1]
    | false =>
      have hps : hasNonMirroredDVPairs ps = true := by
        simp only [hasNonMirroredDVPairs, hx, Bool.false_or] at hbad
        exact hbad
      have h1 := selectReplicaMirrored_ok i x hx hib.1
      have h2 := selectReplicaMirroredPairs_err i ps hps hib.2
      simp [selectReplicaMirroredPairs, h1, h2]

end

/-- C6: `select_replica_mirrored(i, structured)` raises a `TypeError` as
soon as any leaf is a `DistributedValues` that is not `Mirrored` (e.g. a
`PerReplica`), and otherwise succeeds, replacing each `Mirrored` leaf with
its element `values[i]` and returning every other leaf unchanged (the pure
leaf map `sliceLeaf`). -/
theorem claim_C6_select_replica_mirrored (i : Nat) (n : Nest)
    (hib : mirroredInBounds i n = true) :
    (hasNonMirroredDV n = true →
      selectReplicaMirrored i n = Except.error (Err.typeError notMirroredMsg)) ∧
    (hasNonMirroredDV n = false →
      selectReplicaMirrored i n = Except.ok (mapLeaves (sliceLeaf i) n)) :=
  ⟨fun hbad => selectReplicaMirrored_err i n hbad hib,
   fun hgood => selectReplicaMirrored_ok i n hgood hib⟩

/-- Witness for C6: an un-synchronized `PerReplica` leaf is rejected; a
structure of one `Mirrored` leaf and one plain leaf is sliced at replica 1. -/
theorem claim_C6_select_replica_mirrored_witness :
    selectReplicaMirrored 1
        (Nest.listN [Nest.leaf (PyVal.perRep [PyVal.obj 1, PyVal.obj 2])])
      = Except.error (Err.typeError notMirroredMsg) ∧
    selectReplicaMirrored 1
        (Nest.listN [Nest.leaf (PyVal.mirrored [PyVal.obj 1, PyVal.obj 2]),
                     Nest.leaf (PyVal.obj 9)])
      = Except.ok (Nest.listN [Nest.leaf (PyVal.obj 2), Nest.leaf (PyVal.obj 9)]) :=
  ⟨(claim_C6_select_replica_mirrored 1
      (Nest.listN [Nest.leaf (PyVal.perRep [PyVal.obj 1, PyVal.obj 2])])
      (by rfl)).1 (by rfl),
   (claim_C6_select_replica_mirrored 1
      (Nest.listN [Nest.leaf (PyVal.mirrored [PyVal.obj 1, PyVal.obj 2]),
                   Nest.leaf (PyVal.obj 9)])
      (by rfl)).2 (by rfl)⟩


/-! ## List helpers for the round-trip proof -/

/-- `getD` at an in-range index is a member. -/
theorem list_getD_mem {α : Type} (l : List α) (j : Nat) (d : α)
    (h : j < l.length) : l.getD j d ∈ l := by
  induction l generalizing j with
  | nil => simp at h
  | cons a l ih =>
    cases j with
    | zero => simp
    | succ j =>
      simp only [List.getD_cons_succ]
      exact List.mem_cons_of_mem a (ih j (by simpa using h))

/-- `getD` of a mapped list at an in-range index. -/
theorem list_getD_map {α β : Type} (f : α → β) (l : List α) (j : Nat)
    (d : β) (d2 : α) (h : j < l.length) :
    (l.map f).getD j d = f (l.getD j d2) := by
  induction l generalizing j with
  | nil => simp at h
  | cons a l ih =>
    cases j with
    | zero => simp
    | succ j =>
      simp only [List.map_cons, List.getD_cons_succ]
      exact ih j (by simpa using h)

/-- `plainList` is the conjunction of `plainNest` over members. -/
theorem plainList_forall (xs : List Nest) :
    plainList xs = true ↔ ∀ x ∈ xs, plainNest x = true := by
  induction xs with
  | nil => simp [plainList]
  | cons x xs ih => simp [plainList, ih, List.forall_mem_cons]

/-- `plainPairs` is the conjunction of `plainNest` over entry values. -/
theorem plainPairs_forall (ps : List (String × Nest)) :
    plainPairs ps = true ↔ ∀ p ∈ ps, plainNest p.2 = true := by
  induction ps with
  | nil => simp [plainPairs]
  | cons p ps ih =>
    obtain ⟨k, x⟩ := p
    simp [plainPairs, ih, List.forall_mem_cons]

/-- `keysNodupList` is the conjunction of `keysNodup` over members. -/
theorem keysNodupList_forall (xs : List Nest) :
    keysNodupList xs = true ↔ ∀ x ∈ xs, keysNodup x = true := by
  induction xs with
  | nil => simp [keysNodupList]
  | cons x xs ih => simp [keysNodupList, ih, List.forall_mem_cons]

/-- `keysNodupPairs` is the conjunction of `keysNodup` over entry values. -/
theorem keysNodupPairs_forall (ps : List (String × Nest)) :
    keysNodupPairs ps = true ↔ ∀ p ∈ ps, keysNodup p.2 = true := by
  induction ps with
  | nil => simp [keysNodupPairs]
  | cons p ps ih =>
    obtain ⟨k, x⟩ := p
    simp [keysNodupPairs, ih, List.forall_mem_cons]

/-! ## Shape inversion lemmas -/

/-- `sameShapeList` from the empty list forces the empty list. -/
theorem sameShapeList_nil (ys : List Nest) (h : sameShapeList [] ys = true) :
    ys = [] := by
  cases ys with
  | nil => rfl
  | cons y ys => simp [sameShapeList] at h

/-- `sameShapeList` from a cons decomposes the other list. -/
theorem sameShapeList_cons (x : Nest) (xs ys : List Nest)
    (h : sameShapeList (x :: xs) ys = true) :
    ∃ y ys2, ys = y :: ys2 ∧ sameShape x y = true ∧ sameShapeList xs ys2 = true := by
  cases ys with
  | nil => simp [sameShapeList] at h
  | cons y ys2 =>
    simp only [sameShapeList, Bool.and_eq_true] at h
    exact ⟨y, ys2, rfl, h.1, h.2⟩

/-- `sameShapePairs` from the empty list forces the empty list. -/
theorem sameShapePairs_nil (qs : List (String × Nest))
    (h : sameShapePairs [] qs = true) : qs = [] := by
  cases qs with
  | nil => rfl
  | cons q qs => obtain ⟨l, y⟩ := q; simp [sameShapePairs] at h

/-- `sameShapePairs` from a cons decomposes the other list, with the same
leading key. -/
theorem sameShapePairs_cons (k : String) (x : Nest) (ps qs : List (String × Nest))
    (h : sameShapePairs ((k, x) :: ps) qs = true) :
    ∃ y qs2, qs = (k, y) :: qs2 ∧ sameShape x y = true ∧
      sameShapePairs ps qs2 = true := by
  cases qs with
  | nil => simp [sameShapePairs] at h
  | cons q qs2 =>
    obtain ⟨l, y⟩ := q
    simp only [sameShapePairs, Bool.and_eq_true, beq_iff_eq] at h
    exact ⟨y, qs2, by rw [h.1.1], h.1.2, h.2⟩

/-- A nest shape-identical to a leaf is a leaf. -/
theorem sameShape_leaf (v : PyVal) (r : Nest)
    (h : sameShape (Nest.leaf v) r = true) : ∃ w, r = Nest.leaf w := by
  cases r with
  | leaf w => exact ⟨w, rfl⟩
  | listN ys => simp [sameShape] at h
  | tupleN ys => simp [sameShape] at h
  | namedN nm ys => simp [sameShape] at h
  | dictN qs => simp [sameShape] at h

/-- A nest shape-identical to a list is a list of the same shape. -/
theorem sameShape_listN (xs : List Nest) (r : Nest)
    (h : sameShape (Nest.listN xs) r = true) :
    ∃ ys, r = Nest.listN ys ∧ sameShapeList xs ys = true := by
  cases r with
  | listN ys => exact ⟨ys, rfl, by simpa [sameShape] using h⟩
  | leaf w => simp [sameShape] at h
  | tupleN ys => simp [sameShape] at h
  | namedN nm ys => simp [sameShape] at h
  | dictN qs => simp [sameShape] at h

/-- A nest shape-identical to a tuple is a tuple of the same shape. -/
theorem sameShape_tupleN (xs : List Nest) (r : Nest)
    (h : sameShape (Nest.tupleN xs) r = true) :
    ∃ ys, r = Nest.tupleN ys ∧ sameShapeList xs ys = true := by
  cases r with
  | tupleN ys => exact ⟨ys, rfl, by simpa [sameShape] using h⟩
  | leaf w => simp [sameShape] at h
  | listN ys => simp [sameShape] at h
  | namedN nm ys => simp [sameShape] at h
  | dictN qs => simp [sameShape] at h

/-- A nest shape-identical to a namedtuple is a namedtuple of the same type
name and shape. -/
theorem sameShape_namedN (nm : String) (xs : List Nest) (r : Nest)
    (h : sameShape (Nest.namedN nm xs) r = true) :
    ∃ ys, r = Nest.namedN nm ys ∧ sameShapeList xs ys = true := by
  cases r with
  | namedN nm2 ys =>
    simp only [sameShape, Bool.and_eq_true, beq_iff_eq] at h
    exact ⟨ys, by rw [h.1], h.2⟩
  | leaf w => simp [sameShape] at h
  | listN ys => simp [sameShape] at h
  | tupleN ys => simp [sameShape] at h
  | dictN qs => simp [sameShape] at h

/-- A nest shape-identical to a dict is a dict of the same shape. -/
theorem sameShape_dictN (ps : List (String × Nest)) (r : Nest)
    (h : sameShape (Nest.dictN ps) r = true) :
    ∃ qs, r = Nest.dictN qs ∧ sameShapePairs ps qs = true := by
  cases r with
  | dictN qs => exact ⟨qs, rfl, by simpa [sameShape] using h⟩
  | leaf w => simp [sameShape] at h
  | listN ys => simp [sameShape] at h
  | tupleN ys => simp [sameShape] at h
  | namedN nm ys => simp [sameShape] at h

/-- Shape-identical lists have equal length. -/
theorem sameShapeList_length : ∀ (xs ys : List Nest),
    sameShapeList xs ys = true → ys.length = xs.length
  | [], ys, h => by rw [sameShapeList_nil ys h]
  | x :: xs, ys, h => by
    obtain ⟨y, ys2, rfl, _, h2⟩ := sameShapeList_cons x xs ys h
    simp [sameShapeList_length xs ys2 h2]

/-- Shape-identical association lists have equal key sequences. -/
theorem sameShapePairs_keys : ∀ (ps qs : List (String × Nest)),
    sameShapePairs ps qs = true → ps.map Prod.fst = qs.map Prod.fst
  | [], qs, h => by rw [sameShapePairs_nil qs h]
  | (k, x) :: ps, qs, h => by
    obtain ⟨y, qs2, rfl, _, h2⟩ := sameShapePairs_cons k x ps qs h
    simp [sameShapePairs_keys ps qs2 h2]

/-- Equal key sequences satisfy the order-insensitive `keysEq` check. -/
theorem keysEq_of_keys_eq (ps qs : List (String × Nest))
    (h : ps.map Prod.fst = qs.map Prod.fst) : keysEq ps qs = true := by
  unfold keysEq
  rw [Bool.and_eq_true]
  constructor <;> rw [List.all_eq_true]
  · intro p hp
    rw [List.any_eq_true]
    have hmem : p.1 ∈ qs.map Prod.fst := by
      rw [← h]
      exact List.mem_map_of_mem Prod.fst hp
    obtain ⟨q, hq, hqe⟩ := List.mem_map.mp hmem
    exact ⟨q, hq, by simp [hqe]⟩
  · intro q hq
    rw [List.any_eq_true]
    have hmem : q.1 ∈ ps.map Prod.fst := by
      rw [h]
      exact List.mem_map_of_mem Prod.fst hq
    obtain ⟨p, hp, hpe⟩ := List.mem_map.mp hmem
    exact ⟨p, hp, by simp [hpe]⟩

/-! ## mapM extraction lemmas -/

/-- When every replica value is a leaf, `extractAll asLeaf` succeeds and the
inputs are exactly the lifted leaf values. -/
theorem extractAll_asLeaf : ∀ (rest : List Nest),
    (∀ r ∈ rest, ∃ w, r = Nest.leaf w) →
    ∃ vs, extractAll asLeaf rest = some vs ∧ rest = vs.map Nest.leaf := by
  intro rest
  induction rest with
  | nil => exact fun _ => ⟨[], rfl, rfl⟩
  | cons r rest ih =>
    intro h
    obtain ⟨w, rfl⟩ := h r (List.mem_cons_self r rest)
    obtain ⟨vs, h1, h2⟩ := ih (fun r hr => h r (List.mem_cons_of_mem _ hr))
    refine ⟨w :: vs, ?_, by simp [h2]⟩
    simp [extractAll, asLeaf, h1]

/-- When every replica value is a list, `extractAll asListChildren` succeeds and
the inputs are exactly the lifted child lists. -/
theorem extractAll_asListChildren : ∀ (rest : List Nest),
    (∀ r ∈ rest, ∃ ys, r = Nest.listN ys) →
    ∃ cols, extractAll asListChildren rest = some cols ∧ rest = cols.map Nest.listN := by
  intro rest
  induction rest with
  | nil => exact fun _ => ⟨[], rfl, rfl⟩
  | cons r rest ih =>
    intro h
    obtain ⟨ys, rfl⟩ := h r (List.mem_cons_self r rest)
    obtain ⟨cols, h1, h2⟩ := ih (fun r hr => h r (List.mem_cons_of_mem _ hr))
    refine ⟨ys :: cols, ?_, by simp [h2]⟩
    simp [extractAll, asListChildren, h1]

/-- When every replica value is a plain tuple, `extractAll asTupleChildren`
succeeds and the inputs are exactly the lifted child lists. -/
theorem extractAll_asTupleChildren_tuple : ∀ (rest : List Nest),
    (∀ r ∈ rest, ∃ ys, r = Nest.tupleN ys) →
    ∃ cols, extractAll asTupleChildren rest = some cols ∧ rest = cols.map Nest.tupleN := by
  intro rest
  induction rest with
  | nil => exact fun _ => ⟨[], rfl, rfl⟩
  | cons r rest ih =>
    intro h
    obtain ⟨ys, rfl⟩ := h r (List.mem_cons_self r rest)
    obtain ⟨cols, h1, h2⟩ := ih (fun r hr => h r (List.mem_cons_of_mem _ hr))
    refine ⟨ys :: cols, ?_, by simp [h2]⟩
    simp [extractAll, asTupleChildren, h1]

/-- When every replica value is a namedtuple of type `nm`, `extractAll
asTupleChildren` succeeds and the inputs are exactly the lifted child
lists. -/
theorem extractAll_asTupleChildren_named (nm : String) : ∀ (rest : List Nest),
    (∀ r ∈ rest, ∃ ys, r = Nest.namedN nm ys) →
    ∃ cols, extractAll asTupleChildren rest = some cols ∧
      rest = cols.map (Nest.namedN nm) := by
  intro rest
  induction rest with
  | nil => exact fun _ => ⟨[], rfl, rfl⟩
  | cons r rest ih =>
    intro h
    obtain ⟨ys, rfl⟩ := h r (List.mem_cons_self r rest)
    obtain ⟨cols, h1, h2⟩ := ih (fun r hr => h r (List.mem_cons_of_mem _ hr))
    refine ⟨ys :: cols, ?_, by simp [h2]⟩
    simp [extractAll, asTupleChildren, h1]

/-- When every replica value is a dict, `extractAll asDictPairs` succeeds and the
inputs are exactly the lifted entry lists. -/
theorem extractAll_asDictPairs : ∀ (rest : List Nest),
    (∀ r ∈ rest, ∃ qs, r = Nest.dictN qs) →
    ∃ cols, extractAll asDictPairs rest = some cols ∧ rest = cols.map Nest.dictN := by
  intro rest
  induction rest with
  | nil => exact fun _ => ⟨[], rfl, rfl⟩
  | cons r rest ih =>
    intro h
    obtain ⟨qs, rfl⟩ := h r (List.mem_cons_self r rest)
    obtain ⟨cols, h1, h2⟩ := ih (fun r hr => h r (List.mem_cons_of_mem _ hr))
    refine ⟨qs :: cols, ?_, by simp [h2]⟩
    simp [extractAll, asDictPairs, h1]

/-- A plain leaf is an object. -/
theorem plain_leaf_inv (v : PyVal) (h : plainNest (Nest.leaf v) = true) :
    ∃ a, v = PyVal.obj a := by
  cases v with
  | obj a => exact ⟨a, rfl⟩
  | comp a c => simp [plainNest] at h
  | dvar k vid cs => simp [plainNest] at h
  | perRep vs => simp [plainNest] at h
  | mirrored vs => simp [plainNest] at h

/-- `getD` of a list of equal elements. -/
theorem list_getD_const {α : Type} (l : List α) (e d : α) (j : Nat)
    (h : ∀ x ∈ l, x = e) (hj : j < l.length) : l.getD j d = e :=
  h _ (list_getD_mem l j d hj)

/-- `getD` at an in-range index ignores the default. -/
theorem list_getD_eq_getElem {α : Type} (l : List α) (d : α) (j : Nat)
    (h : j < l.length) : l.getD j d = l[j] := by
  induction l generalizing j with
  | nil => simp at h
  | cons a l ih =>
    cases j with
    | zero => simp
    | succ j =>
      simp only [List.getD_cons_succ, List.getElem_cons_succ]
      exact ih j (by simpa using h)

/-- When every column dict starts with key `k0`, `lookupAll k0` returns the
head values. -/
theorem lookupAll_aligned (k0 : String) : ∀ (cols : List (List (String × Nest))),
    (∀ qs ∈ cols, ∃ y qs2, qs = (k0, y) :: qs2) →
    lookupAll k0 cols
      = Except.ok (cols.map (fun qs => (qs.headD (k0, nestDflt)).2)) := by
  intro cols
  induction cols with
  | nil => exact fun _ => rfl
  | cons qs cols ih =>
    intro h
    obtain ⟨y, qs2, rfl⟩ := h qs (List.mem_cons_self _ _)
    have hf : List.find? (fun q => q.1 == k0) ((k0, y) :: qs2) = some (k0, y) :=
      List.find?_cons_of_pos _ (by simp)
    simp [lookupAll, hf, ih (fun qs hq => h qs (List.mem_cons_of_mem _ hq))]

/-- Looking up a key different from every column head key skips the heads. -/
theorem lookupAll_skip (k k0 : String) (hne : k ≠ k0) :
    ∀ (cols : List (List (String × Nest))),
      (∀ qs ∈ cols, ∃ y qs2, qs = (k0, y) :: qs2) →
      lookupAll k cols = lookupAll k (cols.map List.tail) := by
  intro cols
  induction cols with
  | nil => exact fun _ => rfl
  | cons qs cols ih =>
    intro h
    obtain ⟨y, qs2, rfl⟩ := h qs (List.mem_cons_self _ _)
    have hf : List.find? (fun q => q.1 == k) ((k0, y) :: qs2)
        = List.find? (fun q => q.1 == k) qs2 := by
      rw [List.find?_cons_of_neg]
      simp only [beq_iff_eq]
      exact fun hh => hne hh.symm
    simp only [List.map_cons, List.tail_cons, lookupAll, hf,
      ih (fun qs hq => h qs (List.mem_cons_of_mem _ hq))]

/-- When every key of `ps` differs from the common column head key `k0`,
`regroupDict` over the full columns equals `regroupDict` over their tails. -/
theorem regroupDict_shift (wrap : List PyVal → PyVal) (k0 : String) :
    ∀ (ps : List (String × Nest)) (cols : List (List (String × Nest))),
      (∀ p ∈ ps, p.1 ≠ k0) →
      (∀ qs ∈ cols, ∃ y qs2, qs = (k0, y) :: qs2) →
      regroupDict wrap ps cols = regroupDict wrap ps (cols.map List.tail) := by
  intro ps
  induction ps with
  | nil => intro cols _ _; simp [regroupDict]
  | cons p ps ih =>
    intro cols hk hc
    obtain ⟨k, x⟩ := p
    have hne : k ≠ k0 := hk (k, x) (List.mem_cons_self _ _)
    simp only [regroupDict, lookupAll_skip k k0 hne cols hc,
      ih cols (fun p hp => hk p (List.mem_cons_of_mem _ hp)) hc]

/-- Round trip for `regroupCols` over sequence children: the `i`-th selected
output is the `i`-th input column (`xs` itself for `i = 0`, the `(i-1)`-th
other replica's children otherwise). -/
theorem regroupCols_roundtrip (i : Nat) :
    ∀ (xs : List Nest) (cols : List (List Nest)),
      (∀ x ∈ xs, RoundtripP x) →
      (∀ x ∈ xs, plainNest x = true) →
      (∀ x ∈ xs, keysNodup x = true) →
      (∀ ys ∈ cols, sameShapeList xs ys = true) →
      (∀ ys ∈ cols, ∀ y ∈ ys, plainNest y = true) →
      i < cols.length + 1 →
      ∃ gs, regroupCols PyVal.perRep xs cols = Except.ok gs ∧
        selectReplicaList i gs
          = Except.ok (if i = 0 then xs else cols.getD (i - 1) []) := by
  intro xs
  induction xs with
  | nil =>
    intro cols _ _ _ hsh _ hi
    refine ⟨[], by simp [regroupCols], ?_⟩
    cases i with
    | zero => simp [selectReplicaList]
    | succ j =>
      have hj : j < cols.length := Nat.lt_of_succ_lt_succ hi
      have hz := sameShapeList_nil _ (hsh _ (list_getD_mem cols j [] hj))
      simp only [selectReplicaList, Nat.add_sub_cancel,
        if_neg (Nat.succ_ne_zero j)]
      rw [hz]
  | cons x xs ihx =>
    intro cols hIH hplain hnodup hsh hplainc hi
    have hdec : ∀ ys ∈ cols, ∃ y ys2, ys = y :: ys2 ∧ sameShape x y = true ∧
        sameShapeList xs ys2 = true :=
      fun ys hys => sameShapeList_cons x xs ys (hsh ys hys)
    have hx := hIH x (List.mem_cons_self _ _) i
      (cols.map (fun ys => ys.headD nestDflt))
      (hplain x (List.mem_cons_self _ _))
      (by
        intro v hv
        obtain ⟨ys, hys, rfl⟩ := List.mem_map.mp hv
        obtain ⟨y, ys2, rfl, _, _⟩ := hdec ys hys
        exact hplainc _ hys y (List.mem_cons_self _ _))
      (by
        intro v hv
        obtain ⟨ys, hys, rfl⟩ := List.mem_map.mp hv
        obtain ⟨y, ys2, rfl, hsxy, _⟩ := hdec ys hys
        exact hsxy)
      (hnodup x (List.mem_cons_self _ _))
      (by simpa using hi)
    obtain ⟨g, hg1, hg2⟩ := hx
    have hxs := ihx (cols.map List.tail)
      (fun x2 hx2 => hIH x2 (List.mem_cons_of_mem _ hx2))
      (fun x2 hx2 => hplain x2 (List.mem_cons_of_mem _ hx2))
      (fun x2 hx2 => hnodup x2 (List.mem_cons_of_mem _ hx2))
      (by
        intro ys2 hys2
        obtain ⟨ys, hys, rfl⟩ := List.mem_map.mp hys2
        obtain ⟨y, ys2b, rfl, _, htl⟩ := hdec ys hys
        simpa using htl)
      (by
        intro ys2 hys2 y hy
        obtain ⟨ys, hys, rfl⟩ := List.mem_map.mp hys2
        exact hplainc ys hys y (List.mem_of_mem_tail hy))
      (by simpa using hi)
    obtain ⟨gs, hgs1, hgs2⟩ := hxs
    refine ⟨g :: gs, ?_, ?_⟩
    · simp only [regroupCols]
      rw [hg1]
      simp only [except_bind_ok]
      rw [hgs1]
      rfl
    · simp only [selectReplicaList]
      rw [hg2]
      simp only [except_bind_ok]
      rw [hgs2]
      simp only [except_bind_ok]
      cases i with
      | zero => rfl
      | succ j =>
        have hj : j < cols.length := Nat.lt_of_succ_lt_succ hi
        obtain ⟨y, ys2, hqeq, _, _⟩ :=
          hdec (cols.getD j []) (list_getD_mem cols j [] hj)
        have h1 : (cols.map (fun ys => ys.headD nestDflt)).getD j nestDflt
            = (cols.getD j []).headD nestDflt :=
          list_getD_map _ cols j _ [] hj
        have h2 : (cols.map List.tail).getD j [] = (cols.getD j []).tail :=
          list_getD_map _ cols j _ [] hj
        rw [List.getD_cons_succ]
        simp only [Nat.add_sub_cancel, if_neg (Nat.succ_ne_zero j)]
        rw [h1, h2, hqeq]
        rfl

/-- Round trip for `regroupDict` over dict entries: the `i`-th selected
output is the `i`-th input dict (`ps` itself for `i = 0`, the `(i-1)`-th
other replica's entries otherwise). -/
theorem regroupDict_roundtrip (i : Nat) :
    ∀ (ps : List (String × Nest)) (cols : List (List (String × Nest))),
      (∀ p ∈ ps, RoundtripP p.2) →
      (∀ p ∈ ps, plainNest p.2 = true) →
      (∀ p ∈ ps, keysNodup p.2 = true) →
      nodupKeys ps = true →
      (∀ qs ∈ cols, sameShapePairs ps qs = true) →
      (∀ qs ∈ cols, ∀ q ∈ qs, plainNest q.2 = true) →
      i < cols.length + 1 →
      ∃ gs, regroupDict PyVal.perRep ps cols = Except.ok gs ∧
        selectReplicaPairs i gs
          = Except.ok (if i = 0 then ps else cols.getD (i - 1) []) := by
  intro ps
  induction ps with
  | nil =>
    intro cols _ _ _ _ hsh _ hi
    refine ⟨[], by simp [regroupDict], ?_⟩
    cases i with
    | zero => rfl
    | succ j =>
      have hj : j < cols.length := Nat.lt_of_succ_lt_succ hi
      have hz := sameShapePairs_nil _ (hsh _ (list_getD_mem cols j [] hj))
      simp only [selectReplicaPairs, Nat.add_sub_cancel,
        if_neg (Nat.succ_ne_zero j)]
      rw [hz]
  | cons p ps ihp =>
    intro cols hIH hplain hnodup hkeys hsh hplainc hi
    obtain ⟨k0, x⟩ := p
    have hdec : ∀ qs ∈ cols, ∃ y qs2, qs = (k0, y) :: qs2 ∧
        sameShape x y = true ∧ sameShapePairs ps qs2 = true :=
      fun qs hqs => sameShapePairs_cons k0 x ps qs (hsh qs hqs)
    have hheads : ∀ qs ∈ cols, ∃ y qs2, qs = (k0, y) :: qs2 :=
      fun qs hqs => (hdec qs hqs).imp (fun y h => h.imp (fun qs2 h2 => h2.1))
    have hkdec : (!(ps.any (fun q => q.1 == k0))) = true ∧ nodupKeys ps = true := by
      simpa [nodupKeys, Bool.and_eq_true] using hkeys
    have hknot : ∀ p2 ∈ ps, p2.1 ≠ k0 := by
      intro p2 hp2 he
      have hfalse := hkdec.1
      rw [Bool.not_eq_true', List.any_eq_false] at hfalse
      exact absurd (by simp [he]) (hfalse p2 hp2)
    have hlook := lookupAll_aligned k0 cols hheads
    have hx := hIH (k0, x) (List.mem_cons_self _ _) i
      (cols.map (fun qs => (qs.headD (k0, nestDflt)).2))
      (hplain _ (List.mem_cons_self _ _))
      (by
        intro v hv
        obtain ⟨qs, hqs, rfl⟩ := List.mem_map.mp hv
        obtain ⟨y, qs2, rfl, _, _⟩ := hdec qs hqs
        exact hplainc _ hqs (k0, y) (List.mem_cons_self _ _))
      (by
        intro v hv
        obtain ⟨qs, hqs, rfl⟩ := List.mem_map.mp hv
        obtain ⟨y, qs2, rfl, hsxy, _⟩ := hdec qs hqs
        exact hsxy)
      (hnodup _ (List.mem_cons_self _ _))
      (by simpa using hi)
    obtain ⟨g, hg1, hg2⟩ := hx
    have hshift := regroupDict_shift PyVal.perRep k0 ps cols hknot hheads
    have hxs := ihp (cols.map List.tail)
      (fun p2 hp2 => hIH p2 (List.mem_cons_of_mem _ hp2))
      (fun p2 hp2 => hplain p2 (List.mem_cons_of_mem _ hp2))
      (fun p2 hp2 => hnodup p2 (List.mem_cons_of_mem _ hp2))
      hkdec.2
      (by
        intro qs2 hqs2
        obtain ⟨qs, hqs, rfl⟩ := List.mem_map.mp hqs2
        obtain ⟨y, qs2b, rfl, _, htl⟩ := hdec qs hqs
        simpa using htl)
      (by
        intro qs2 hqs2 q hq
        obtain ⟨qs, hqs, rfl⟩ := List.mem_map.mp hqs2
        exact hplainc qs hqs q (List.mem_of_mem_tail hq))
      (by simpa using hi)
    obtain ⟨gs, hgs1, hgs2⟩ := hxs
    refine ⟨(k0, g) :: gs, ?_, ?_⟩
    · simp only [regroupDict]
      rw [hlook]
      simp only [except_bind_ok]
      rw [hg1]
      simp only [except_bind_ok]
      rw [hshift, hgs1]
      rfl
    · simp only [selectReplicaPairs]
      rw [hg2]
      simp only [except_bind_ok]
      rw [hgs2]
      simp only [except_bind_ok]
      cases i with
      | zero => rfl
      | succ j =>
        have hj : j < cols.length := Nat.lt_of_succ_lt_succ hi
        obtain ⟨y, qs2, hqeq, _, _⟩ :=
          hdec (cols.getD j []) (list_getD_mem cols j [] hj)
        have h1 : (cols.map (fun qs => (qs.headD (k0, nestDflt)).2)).getD j nestDflt
            = ((cols.getD j []).headD (k0, nestDflt)).2 :=
          list_getD_map _ cols j _ [] hj
        have h2 : (cols.map List.tail).getD j [] = (cols.getD j []).tail :=
          list_getD_map _ cols j _ [] hj
        rw [List.getD_cons_succ]
        simp only [Nat.add_sub_cancel, if_neg (Nat.succ_ne_zero j)]
        rw [h1, h2, hqeq]
        rfl

/-- `select_replica` slices a `PerReplica` leaf at an in-range replica id. -/
theorem selectReplica_perRep_leaf (i : Nat) (ws : List PyVal)
    (h : i < ws.length) :
    selectReplica i (Nest.leaf (PyVal.perRep ws))
      = Except.ok (Nest.leaf (ws.getD i (PyVal.obj 0))) := by
  have hg : ws.getD i (PyVal.obj 0) = ws[i] := list_getD_eq_getElem ws _ i h
  simp [selectReplica, isDistributedVariable, isDistributedValues, pyValues,
    List.getElem?_eq_getElem h, hg]

/-- Round trip for a leaf structure: plain leaves that coincide across
replicas come back unwrapped, divergent ones through the `PerReplica`
wrap. -/
theorem roundtrip_leaf (v : PyVal) : RoundtripP (Nest.leaf v) := by
  intro i rest hplain hplainr hsh hnd hi
  obtain ⟨a, rfl⟩ := plain_leaf_inv v hplain
  have hleaf : ∀ r ∈ rest, ∃ w, r = Nest.leaf w :=
    fun r hr => sameShape_leaf _ r (hsh r hr)
  obtain ⟨vs, hex, hrfl⟩ := extractAll_asLeaf rest hleaf
  have hobj : ∀ w ∈ vs, ∃ b, w = PyVal.obj b := by
    intro w hw
    have hpw : plainNest (Nest.leaf w) = true := by
      apply hplainr
      rw [hrfl]
      exact List.mem_map_of_mem Nest.leaf hw
    exact plain_leaf_inv w hpw
  have hlen : vs.length = rest.length := by rw [hrfl]; simp
  have hilen : i < (PyVal.obj a :: vs).length := by
    simp only [List.length_cons, hlen]
    simpa using hi
  cases hall : vs.all (fun w => PyVal.beq w (PyVal.obj a)) with
  | true =>
    have huni : ∀ w ∈ vs, w = PyVal.obj a := by
      intro w hw
      obtain ⟨b, rfl⟩ := hobj w hw
      have hb := (List.all_eq_true.mp hall) _ hw
      simp only [PyVal.beq, beq_iff_eq] at hb
      rw [hb]
    refine ⟨Nest.leaf (PyVal.obj a), ?_, ?_⟩
    · simp only [regroup, hex]
      rw [regroupLeaves_obj_uniform PyVal.perRep a vs huni]
      rfl
    · have hconst : ∀ r ∈ Nest.leaf (PyVal.obj a) :: rest,
          r = Nest.leaf (PyVal.obj a) := by
        intro r hr
        rcases List.mem_cons.mp hr with h | h
        · exact h
        · rw [hrfl] at h
          obtain ⟨w, hw, rfl⟩ := List.mem_map.mp h
          rw [huni w hw]
      rw [list_getD_const _ _ nestDflt i hconst (by simpa using hi)]
      rfl
  | false =>
    have hdiv : ∃ w ∈ vs, w ≠ PyVal.obj a := by
      obtain ⟨w, hw, hnb⟩ := List.all_eq_false.mp hall
      exact ⟨w, hw, fun he => hnb (by rw [he]; simp [PyVal.beq])⟩
    refine ⟨Nest.leaf (PyVal.perRep (PyVal.obj a :: vs)), ?_, ?_⟩
    · simp only [regroup, hex]
      rw [regroupLeaves_obj_divergent PyVal.perRep a vs hobj hdiv]
      rfl
    · have hmap : Nest.leaf (PyVal.obj a) :: rest
          = (PyVal.obj a :: vs).map Nest.leaf := by
        simp [hrfl]
      rw [selectReplica_perRep_leaf i (PyVal.obj a :: vs) hilen, hmap,
        list_getD_map Nest.leaf (PyVal.obj a :: vs) i nestDflt (PyVal.obj 0) hilen]

/-- Strong induction on the size of a nest (used to recurse through the
nested lists of children). -/
theorem nest_strong_induction (P : Nest → Prop)
    (h : ∀ n, (∀ m, sizeOf m < sizeOf n → P m) → P n) : ∀ n, P n := by
  have H : ∀ (s : Nat) (n : Nest), sizeOf n ≤ s → P n := by
    intro s
    induction s with
    | zero =>
      intro n hn
      exact h n (fun m hm => absurd (Nat.lt_of_lt_of_le hm hn) (Nat.not_lt_zero _))
    | succ s ih =>
      intro n hn
      exact h n (fun m hm => ih m (Nat.le_of_lt_succ (Nat.lt_of_lt_of_le hm hn)))
  exact fun n => H (sizeOf n) n (Nat.le_refl _)

/-- The round-trip property holds for every nest. -/
theorem roundtrip_all : ∀ (v0 : Nest), RoundtripP v0 := by
  apply nest_strong_induction RoundtripP
  intro n IHsize
  cases n with
  | leaf v => exact roundtrip_leaf v
  | listN xs =>
    have hIH : ∀ x ∈ xs, RoundtripP x := by
      intro x hx
      apply IHsize
      have hlt := List.sizeOf_lt_of_mem hx
      simp only [Nest.listN.sizeOf_spec]
      omega
    intro i rest hplain hplainr hsh hnd hi
    have hrest : ∀ r ∈ rest, ∃ ys, r = Nest.listN ys := by
      intro r hr
      obtain ⟨ys, h1, _⟩ := sameShape_listN xs r (hsh r hr)
      exact ⟨ys, h1⟩
    obtain ⟨cols, hex, hrfl⟩ := extractAll_asListChildren rest hrest
    have hmemr : ∀ ys ∈ cols, Nest.listN ys ∈ rest := by
      intro ys hys
      rw [hrfl]
      exact List.mem_map_of_mem _ hys
    have hshc : ∀ ys ∈ cols, sameShapeList xs ys = true := by
      intro ys hys
      simpa [sameShape] using hsh _ (hmemr ys hys)
    have hplainc : ∀ ys ∈ cols, ∀ y ∈ ys, plainNest y = true := by
      intro ys hys y hy
      have hp := hplainr _ (hmemr ys hys)
      rw [show plainNest (Nest.listN ys) = plainList ys from rfl,
        plainList_forall] at hp
      exact hp y hy
    have hplainxs : ∀ x ∈ xs, plainNest x = true := by
      rw [show plainNest (Nest.listN xs) = plainList xs from rfl,
        plainList_forall] at hplain
      exact hplain
    have hndxs : ∀ x ∈ xs, keysNodup x = true := by
      rw [show keysNodup (Nest.listN xs) = keysNodupList xs from rfl,
        keysNodupList_forall] at hnd
      exact hnd
    have hilen : i < cols.length + 1 := by
      have : cols.length = rest.length := by rw [hrfl]; simp
      rw [this]
      exact hi
    have hcheck : (cols.all fun ys => ys.length = xs.length) = true := by
      rw [List.all_eq_true]
      intro ys hys
      simpa using sameShapeList_length xs ys (hshc ys hys)
    obtain ⟨gs, h1, h2⟩ :=
      regroupCols_roundtrip i xs cols hIH hplainxs hndxs hshc hplainc hilen
    refine ⟨Nest.listN gs, ?_, ?_⟩
    · simp only [regroup, hex]
      rw [if_pos hcheck, h1]
      rfl
    · simp only [selectReplica]
      rw [h2]
      simp only [except_map_ok]
      cases i with
      | zero => rfl
      | succ j =>
        have hj : j < cols.length := Nat.lt_of_succ_lt_succ hilen
        rw [List.getD_cons_succ, hrfl,
          list_getD_map Nest.listN cols j nestDflt [] hj]
        simp only [Nat.add_sub_cancel, if_neg (Nat.succ_ne_zero j)]
  | tupleN xs =>
    have hIH : ∀ x ∈ xs, RoundtripP x := by
      intro x hx
      apply IHsize
      have hlt := List.sizeOf_lt_of_mem hx
      simp only [Nest.tupleN.sizeOf_spec]
      omega
    intro i rest hplain hplainr hsh hnd hi
    have hrest : ∀ r ∈ rest, ∃ ys, r = Nest.tupleN ys := by
      intro r hr
      obtain ⟨ys, h1, _⟩ := sameShape_tupleN xs r (hsh r hr)
      exact ⟨ys, h1⟩
    obtain ⟨cols, hex, hrfl⟩ := extractAll_asTupleChildren_tuple rest hrest
    have hmemr : ∀ ys ∈ cols, Nest.tupleN ys ∈ rest := by
      intro ys hys
      rw [hrfl]
      exact List.mem_map_of_mem _ hys
    have hshc : ∀ ys ∈ cols, sameShapeList xs ys = true := by
      intro ys hys
      simpa [sameShape] using hsh _ (hmemr ys hys)
    have hplainc : ∀ ys ∈ cols, ∀ y ∈ ys, plainNest y = true := by
      intro ys hys y hy
      have hp := hplainr _ (hmemr ys hys)
      rw [show plainNest (Nest.tupleN ys) = plainList ys from rfl,
        plainList_forall] at hp
      exact hp y hy
    have hplainxs : ∀ x ∈ xs, plainNest x = true := by
      rw [show plainNest (Nest.tupleN xs) = plainList xs from rfl,
        plainList_forall] at hplain
      exact hplain
    have hndxs : ∀ x ∈ xs, keysNodup x = true := by
      rw [show keysNodup (Nest.tupleN xs) = keysNodupList xs from rfl,
        keysNodupList_forall] at hnd
      exact hnd
    have hilen : i < cols.length + 1 := by
      have : cols.length = rest.length := by rw [hrfl]; simp
      rw [this]
      exact hi
    have hcheck : (cols.all fun ys => ys.length = xs.length) = true := by
      rw [List.all_eq_true]
      intro ys hys
      simpa using sameShapeList_length xs ys (hshc ys hys)
    obtain ⟨gs, h1, h2⟩ :=
      regroupCols_roundtrip i xs cols hIH hplainxs hndxs hshc hplainc hilen
    refine ⟨Nest.tupleN gs, ?_, ?_⟩
    · simp only [regroup, hex]
      rw [if_pos hcheck, h1]
      rfl
    · simp only [selectReplica]
      rw [h2]
      simp only [except_map_ok]
      cases i with
      | zero => rfl
      | succ j =>
        have hj : j < cols.length := Nat.lt_of_succ_lt_succ hilen
        rw [List.getD_cons_succ, hrfl,
          list_getD_map Nest.tupleN cols j nestDflt [] hj]
        simp only [Nat.add_sub_cancel, if_neg (Nat.succ_ne_zero j)]
  | namedN nm xs =>
    have hIH : ∀ x ∈ xs, RoundtripP x := by
      intro x hx
      apply IHsize
      have hlt := List.sizeOf_lt_of_mem hx
      simp only [Nest.namedN.sizeOf_spec]
      omega
    intro i rest hplain hplainr hsh hnd hi
    have hrest : ∀ r ∈ rest, ∃ ys, r = Nest.namedN nm ys := by
      intro r hr
      obtain ⟨ys, h1, _⟩ := sameShape_namedN nm xs r (hsh r hr)
      exact ⟨ys, h1⟩
    obtain ⟨cols, hex, hrfl⟩ := extractAll_asTupleChildren_named nm rest hrest
    have hmemr : ∀ ys ∈ cols, Nest.namedN nm ys ∈ rest := by
      intro ys hys
      rw [hrfl]
      exact List.mem_map_of_mem _ hys
    have hshc : ∀ ys ∈ cols, sameShapeList xs ys = true := by
      intro ys hys
      simpa [sameShape] using hsh _ (hmemr ys hys)
    have hplainc : ∀ ys ∈ cols, ∀ y ∈ ys, plainNest y = true := by
      intro ys hys y hy
      have hp := hplainr _ (hmemr ys hys)
      rw [show plainNest (Nest.namedN nm ys) = plainList ys from rfl,
        plainList_forall] at hp
      exact hp y hy
    have hplainxs : ∀ x ∈ xs, plainNest x = true := by
      rw [show plainNest (Nest.namedN nm xs) = plainList xs from rfl,
        plainList_forall] at hplain
      exact hplain
    have hndxs : ∀ x ∈ xs, keysNodup x = true := by
      rw [show keysNodup (Nest.namedN nm xs) = keysNodupList xs from rfl,
        keysNodupList_forall] at hnd
      exact hnd
    have hilen : i < cols.length + 1 := by
      have : cols.length = rest.length := by rw [hrfl]; simp
      rw [this]
      exact hi
    have hcheck : (cols.all fun ys => ys.length = xs.length) = true := by
      rw [List.all_eq_true]
      intro ys hys
      simpa using sameShapeList_length xs ys (hshc ys hys)
    obtain ⟨gs, h1, h2⟩ :=
      regroupCols_roundtrip i xs cols hIH hplainxs hndxs hshc hplainc hilen
    refine ⟨Nest.namedN nm gs, ?_, ?_⟩
    · simp only [regroup, hex]
      rw [if_pos hcheck, h1]
      rfl
    · simp only [selectReplica]
      rw [h2]
      simp only [except_map_ok]
      cases i with
      | zero => rfl
      | succ j =>
        have hj : j < cols.length := Nat.lt_of_succ_lt_succ hilen
        rw [List.getD_cons_succ, hrfl,
          list_getD_map (Nest.namedN nm) cols j nestDflt [] hj]
        simp only [Nat.add_sub_cancel, if_neg (Nat.succ_ne_zero j)]
  | dictN ps =>
    have hIH : ∀ p ∈ ps, RoundtripP p.2 := by
      intro p hp
      apply IHsize
      have h1 := List.sizeOf_lt_of_mem hp
      obtain ⟨k, x⟩ := p
      show sizeOf x < sizeOf (Nest.dictN ps)
      simp only [Prod.mk.sizeOf_spec] at h1
      simp only [Nest.dictN.sizeOf_spec]
      omega
    intro i rest hplain hplainr hsh hnd hi
    have hrest : ∀ r ∈ rest, ∃ qs, r = Nest.dictN qs := by
      intro r hr
      obtain ⟨qs, h1, _⟩ := sameShape_dictN ps r (hsh r hr)
      exact ⟨qs, h1⟩
    obtain ⟨cols, hex, hrfl⟩ := extractAll_asDictPairs rest hrest
    have hmemr : ∀ qs ∈ cols, Nest.dictN qs ∈ rest := by
      intro qs hqs
      rw [hrfl]
      exact List.mem_map_of_mem _ hqs
    have hshc : ∀ qs ∈ cols, sameShapePairs ps qs = true := by
      intro qs hqs
      simpa [sameShape] using hsh _ (hmemr qs hqs)
    have hplainc : ∀ qs ∈ cols, ∀ q ∈ qs, plainNest q.2 = true := by
      intro qs hqs q hq
      have hp := hplainr _ (hmemr qs hqs)
      rw [show plainNest (Nest.dictN qs) = plainPairs qs from rfl,
        plainPairs_forall] at hp
      exact hp q hq
    have hplainps : ∀ p ∈ ps, plainNest p.2 = true := by
      rw [show plainNest (Nest.dictN ps) = plainPairs ps from rfl,
        plainPairs_forall] at hplain
      exact hplain
    have hnddec : nodupKeys ps = true ∧ keysNodupPairs ps = true := by
      simpa [keysNodup, Bool.and_eq_true] using hnd
    have hndps : ∀ p ∈ ps, keysNodup p.2 = true :=
      (keysNodupPairs_forall ps).mp hnddec.2
    have hilen : i < cols.length + 1 := by
      have : cols.length = rest.length := by rw [hrfl]; simp
      rw [this]
      exact hi
    have hcheck : (cols.all fun qs => keysEq ps qs) = true := by
      rw [List.all_eq_true]
      intro qs hqs
      exact keysEq_of_keys_eq ps qs (sameShapePairs_keys ps qs (hshc qs hqs))
    obtain ⟨gs, h1, h2⟩ :=
      regroupDict_roundtrip i ps cols hIH hplainps hndps hnddec.1 hshc hplainc hilen
    refine ⟨Nest.dictN gs, ?_, ?_⟩
    · simp only [regroup, hex]
      rw [if_pos hcheck, h1]
      rfl
    · simp only [selectReplica]
      rw [h2]
      simp only [except_map_ok]
      cases i with
      | zero => rfl
      | succ j =>
        have hj : j < cols.length := Nat.lt_of_succ_lt_succ hilen
        rw [List.getD_cons_succ, hrfl,
          list_getD_map Nest.dictN cols j nestDflt [] hj]
        simp only [Nat.add_sub_cancel, if_neg (Nat.succ_ne_zero j)]

/-- C2: for every nonempty sequence `v0 :: rest` of structurally-identical
plain-leaf nested per-replica structures (lists, tuples, namedtuples and
fixed-key dicts, to any nesting depth) and every replica id
`i < N`, `select_replica(i, regroup(values))` reproduces the original `i`-th
per-replica structure. -/
theorem claim_C2_regroup_select_roundtrip (i : Nat) (v0 : Nest)
    (rest : List Nest)
    (hplain0 : plainNest v0 = true)
    (hplainr : ∀ v ∈ rest, plainNest v = true)
    (hshape : ∀ v ∈ rest, sameShape v0 v = true)
    (hnodup : keysNodup v0 = true)
    (hi : i < rest.length + 1) :
    ∃ g, regroup PyVal.perRep v0 rest = Except.ok g ∧
      selectReplica i g = Except.ok ((v0 :: rest).getD i nestDflt) :=
  roundtrip_all v0 i rest hplain0 hplainr hshape hnodup hi

/-- Witness for C2: a three-level list/dict/tuple structure over two
replicas, selected back at replica 1. -/
theorem claim_C2_regroup_select_roundtrip_witness :
    ∃ g, regroup PyVal.perRep
        (Nest.listN [Nest.dictN [("a", Nest.leaf (PyVal.obj 1)),
          ("b", Nest.tupleN [Nest.leaf (PyVal.obj 2), Nest.leaf (PyVal.obj 3)])]])
        [Nest.listN [Nest.dictN [("a", Nest.leaf (PyVal.obj 4)),
          ("b", Nest.tupleN [Nest.leaf (PyVal.obj 2), Nest.leaf (PyVal.obj 5)])]]]
        = Except.ok g ∧
      selectReplica 1 g
        = Except.ok
          ((Nest.listN [Nest.dictN [("a", Nest.leaf (PyVal.obj 1)),
              ("b", Nest.tupleN [Nest.leaf (PyVal.obj 2), Nest.leaf (PyVal.obj 3)])]] ::
            [Nest.listN [Nest.dictN [("a", Nest.leaf (PyVal.obj 4)),
              ("b", Nest.tupleN [Nest.leaf (PyVal.obj 2), Nest.leaf (PyVal.obj 5)])]]]).getD
            1 nestDflt) :=
  claim_C2_regroup_select_roundtrip 1
    (Nest.listN [Nest.dictN [("a", Nest.leaf (PyVal.obj 1)),
      ("b", Nest.tupleN [Nest.leaf (PyVal.obj 2), Nest.leaf (PyVal.obj 3)])]])
    [Nest.listN [Nest.dictN [("a", Nest.leaf (PyVal.obj 4)),
      ("b", Nest.tupleN [Nest.leaf (PyVal.obj 2), Nest.leaf (PyVal.obj 5)])]]]
    (by rfl)
    (by intro v hv; simp only [List.mem_singleton] at hv; rw [hv]; rfl)
    (by intro v hv; simp only [List.mem_singleton] at hv; rw [hv]; rfl)
    (by rfl)
    (by simp)
